import Mathlib

/-!
Shallow embedding of `src/fesh_comp/src/main.rs` (the `fesh` compressor) and
proofs about the claims of the specification.

Byte buffers are modelled as `List Nat`, one element per byte.  Machine
integers are modelled as `Nat` with an explicit `% 2^w` at every point where
the Rust code wraps.  External collaborators (the `object` ELF parser, the
`iced-x86` instruction decoder, the LZMA entropy coder) are out of scope of
the repository; where a transform consumes their *results*, those results are
parameters of the embedded function (an `Option ParsedObj` for the parse, an
oracle for decoded instruction patches).  Everything else is translated
directly from the source.
-/

set_option maxHeartbeats 1000000

namespace Fesh

/-! ### Category constants (main.rs lines 12-27) -/

def CAT_OTHER : Nat := 0
def CAT_CODE : Nat := 1
def CAT_STR : Nat := 2
def CAT_S2 : Nat := 3
def CAT_S4 : Nat := 4
def CAT_S8 : Nat := 5
def CAT_RELR8 : Nat := 6
def CAT_S16 : Nat := 7
def CAT_REL16 : Nat := 8
def CAT_DYNAMIC16 : Nat := 9
def CAT_S24 : Nat := 10
def CAT_RELA24 : Nat := 11
def CAT_SYM24 : Nat := 12
def CAT_EH : Nat := 13
def CAT_JT4 : Nat := 14
def CAT_COUNT : Nat := 15

/-! ### Byte-buffer helpers

`setRange` models `buf[p..p+n].copy_from_slice(src)`.  The source panics when
the range exceeds the buffer; every call site in the source is guarded so the
in-range case is the only one exercised, and this total model leaves the
buffer unchanged out of range. -/

def setRange (l : List Nat) (pos : Nat) (src : List Nat) : List Nat :=
  if pos + src.length ≤ l.length then l.take pos ++ src ++ l.drop (pos + src.length) else l

/-- `LittleEndian::read_u32(&l[p..p+4])`. -/
def readU32LE (l : List Nat) (p : Nat) : Nat :=
  l.getD p 0 + l.getD (p+1) 0 * 256 + l.getD (p+2) 0 * 256^2 + l.getD (p+3) 0 * 256^3

/-- `u32::from_be_bytes(l[p..p+4])`. -/
def readU32BE (l : List Nat) (p : Nat) : Nat :=
  l.getD (p+3) 0 + l.getD (p+2) 0 * 256 + l.getD (p+1) 0 * 256^2 + l.getD p 0 * 256^3

def u32LEBytes (v : Nat) : List Nat :=
  [v % 256, v / 256 % 256, v / 256^2 % 256, v / 256^3 % 256]

def u32BEBytes (v : Nat) : List Nat := (u32LEBytes v).reverse

def writeU32LE (l : List Nat) (p v : Nat) : List Nat := setRange l p (u32LEBytes v)

/-- Store a `u32` as big- or little-endian per the outer endian mode. -/
def writeU32 (l : List Nat) (p v : Nat) (use_be : Bool) : List Nat :=
  setRange l p (if use_be then u32BEBytes v else u32LEBytes v)

/-- Read a `u32` as big- or little-endian per the outer endian mode. -/
def readU32 (l : List Nat) (p : Nat) (use_be : Bool) : Nat :=
  if use_be then readU32BE l p else readU32LE l p

/-- `LittleEndian::read_u64(&l[p..p+8])`. -/
def readU64LE (l : List Nat) (p : Nat) : Nat :=
  l.getD p 0 + l.getD (p+1) 0 * 256 + l.getD (p+2) 0 * 256^2 + l.getD (p+3) 0 * 256^3 +
  l.getD (p+4) 0 * 256^4 + l.getD (p+5) 0 * 256^5 + l.getD (p+6) 0 * 256^6 +
  l.getD (p+7) 0 * 256^7

def u64LEBytes (v : Nat) : List Nat :=
  [v % 256, v / 256 % 256, v / 256^2 % 256, v / 256^3 % 256,
   v / 256^4 % 256, v / 256^5 % 256, v / 256^6 % 256, v / 256^7 % 256]

def writeU64LE (l : List Nat) (p v : Nat) : List Nat := setRange l p (u64LEBytes v)

/-- `str::starts_with` on section names. -/
def strStartsWith (s pat : String) : Bool := decide (pat.toList <+: s.toList)

/-- `str::contains` (substring test) on section names. -/
def strContains (s pat : String) : Bool := decide (pat.toList <:+: s.toList)

/-- Reading four bytes as `i32`, widening to `i64` and reinterpreting as `u64`
(the Rust `val as i64 as u64` for `val : i32`): two's-complement sign
extension of a 32-bit pattern `v < 2^32` into a 64-bit pattern. -/
def sext32 (v : Nat) : Nat := if v < 2^31 then v else 2^64 - 2^32 + v

/-! ### Varint codec (main.rs lines 70-96) -/

/-- Loop of `write_varint` (main.rs lines 70-82), emitting the low 7-bit
group first with continuation bit `0x80` on every non-terminal byte.  Each
iteration shrinks `val` strictly (when nonzero), so `val` itself bounds the
iteration count; `fuel` is structural and the zero case is unreachable for
`fuel ≥ val`. -/
def write_varint_go (fuel val : Nat) : List Nat :=
  match fuel with
  | 0 => [val &&& 127]
  | fuel + 1 =>
    let byte := val &&& 127
    if val >>> 7 ≠ 0 then (byte ||| 128) :: write_varint_go fuel (val >>> 7) else [byte]

/-- `write_varint` (main.rs lines 70-82); returns the bytes pushed onto the
output buffer. -/
def write_varint (v : Nat) : List Nat := write_varint_go v v

/-- Loop body of `read_varint` (main.rs lines 84-96).  `buf` is the unread
suffix (the source walks an index `pos` over the full buffer), `shift` and
`val` are the loop state; `u64` shifts and ors wrap modulo `2^64`. -/
def read_varint_go (buf : List Nat) (shift val : Nat) : Except String (Nat × List Nat) :=
  match buf with
  | [] => .error "varint eof"
  | byte :: rest =>
    let val2 := val ||| ((byte &&& 127) <<< shift) % 2^64
    if byte &&& 128 = 0 then .ok (val2, rest)
    else if 64 ≤ shift + 7 then .error "varint overflow"
    else read_varint_go rest (shift + 7) val2

/-- `read_varint` (main.rs lines 84-96): returns the decoded value and the
unread rest of the buffer. -/
def read_varint (buf : List Nat) : Except String (Nat × List Nat) :=
  read_varint_go buf 0 0

/-! ### Byte transpose (main.rs lines 98-124) -/

/-- `shuffle_bytes` (main.rs lines 98-110). -/
def shuffle_bytes (data : List Nat) (stride : Nat) : List Nat :=
  if data.isEmpty ∨ stride ≤ 1 then data
  else
    let count := data.length / stride
    let out0 := List.replicate data.length 0
    let out1 := (List.range count).foldl (fun out i =>
      (List.range stride).foldl (fun out j =>
        out.set (j * count + i) (data.getD (i * stride + j) 0)) out) out0
    (List.range' (count * stride) (data.length - count * stride)).foldl
      (fun out i => out.set i (data.getD i 0)) out1

/-- `unshuffle_bytes` (main.rs lines 112-124). -/
def unshuffle_bytes (data : List Nat) (stride : Nat) : List Nat :=
  if data.isEmpty ∨ stride ≤ 1 then data
  else
    let count := data.length / stride
    let out0 := List.replicate data.length 0
    let out1 := (List.range count).foldl (fun out i =>
      (List.range stride).foldl (fun out j =>
        out.set (i * stride + j) (data.getD (j * count + i) 0)) out) out0
    (List.range' (count * stride) (data.length - count * stride)).foldl
      (fun out i => out.set i (data.getD i 0)) out1

/-! ### Parsed-object model

`object::File::parse` is an external collaborator; a transform receives its
result as an `Option ParsedObj` (`none` models `Err(_)` from the parser).
Fields mirror exactly the accessors the source uses: section name, kind
(`SectionKind::Text` or not), address, size, `file_range()`, `data()`;
segment addresses; and the architecture / endianness / word-size report. -/

inductive SecKind where
  | text : SecKind
  | other : SecKind
deriving DecidableEq

structure ObjSection where
  name : String
  kind : SecKind
  addr : Nat
  size : Nat
  fileRange : Option (Nat × Nat)
  sdata : Option (List Nat)
deriving DecidableEq

structure ParsedObj where
  isX8664 : Bool
  isLE : Bool
  is64 : Bool
  sections : List ObjSection
  segments : List Nat
deriving DecidableEq

/-- Image-base computation (main.rs lines 443-447, 578-582, 663-666): the
minimum segment address, starting from the `u64::MAX` sentinel, 0 when there
are no segments. -/
def imageBase (o : ParsedObj) : Nat :=
  let m := o.segments.foldl (fun acc a => if a < acc then a else acc) (2^64 - 1)
  if m = 2^64 - 1 then 0 else m

/-- `file_to_va` (main.rs lines 520-527): the first section whose file range
contains `offset` gives the virtual address. -/
def fileToVa (o : ParsedObj) (offset : Nat) : Option Nat :=
  o.sections.findSome? (fun sec =>
    match sec.fileRange with
    | some (fo, size) =>
      if fo ≤ offset ∧ offset < fo + size then some ((sec.addr + (offset - fo)) % 2^64)
      else none
    | none => none)

/-! ### EH-frame-hdr patcher (main.rs lines 554-649) -/

/-- `eh_pe_fixed_size` (main.rs lines 554-563). -/
def eh_pe_fixed_size (enc : Nat) (ptr_size : Nat) : Option Nat :=
  if enc = 0xFF then some 0
  else if enc % 16 = 0x00 then some ptr_size
  else if enc % 16 = 0x02 ∨ enc % 16 = 0x0A then some 2
  else if enc % 16 = 0x03 ∨ enc % 16 = 0x0B then some 4
  else if enc % 16 = 0x04 ∨ enc % 16 = 0x0C then some 8
  else none

structure EhPatch where
  fo : Nat
  field_va : Nat
deriving DecidableEq

/-- Compress direction for one EH table field (main.rs lines 632-639):
`field_va` is the base VA stored in the patch, `cur` the 4-byte field read
from the buffer.  `none` means the entry is skipped (the buffer keeps its
bytes); `some w` means the 32-bit value `w` is stored. -/
def ehCompressField (image_base field_va cur : Nat) : Option Nat :=
  let abs_va := (field_va + sext32 cur) % 2^64
  let abs_va := if image_base ≤ abs_va then abs_va - image_base else abs_va
  if 2^32 - 1 < abs_va then none else some abs_va

/-- Decompress direction for one EH table field (main.rs lines 641-644):
`(v as u64).wrapping_add(image_base).wrapping_sub(field_va) as u32`,
applied unconditionally to every patch. -/
def ehDecompressField (image_base field_va v : Nat) : Nat :=
  ((v + image_base + (2^64 - field_va % 2^64)) % 2^64) % 2^32

/-- Patch collection of `process_eh_frame_hdr` (main.rs lines 586-629). -/
def ehCollectPatches (o : ParsedObj) : List EhPatch :=
  o.sections.foldl (fun acc sec =>
    if sec.name ≠ ".eh_frame_hdr" then acc
    else
      match sec.fileRange, sec.sdata with
      | some (file_off, sec_size), some data =>
        if data.length ≠ sec_size ∨ data.length < 8 then acc
        else
          let version := data.getD 0 0
          let eh_frame_ptr_enc := data.getD 1 0
          let fde_count_enc := data.getD 2 0
          let table_enc := data.getD 3 0
          if version ≠ 1 then acc
          else if table_enc ≠ 0x1b ∧ table_enc ≠ 0x3b then acc
          else
            match eh_pe_fixed_size eh_frame_ptr_enc 8 with
            | none => acc
            | some skip_sz =>
              let pos := 4 + skip_sz
              match eh_pe_fixed_size fde_count_enc 8 with
              | none => acc
              | some fde_count_sz =>
                if fde_count_sz = 4 then
                  if data.length < pos + 4 then acc
                  else
                    let fde_count := readU32LE data pos
                    let pos := pos + 4
                    if pos + fde_count * 8 ≤ data.length then
                      acc ++ (List.range (fde_count * 2)).map (fun i =>
                        { fo := file_off + pos + i * 4,
                          field_va :=
                            if table_enc = 0x1b then (sec.addr + pos + i * 4) % 2^64
                            else sec.addr })
                    else acc
                else acc
      | _, _ => acc) []

/-- `process_eh_frame_hdr` (main.rs lines 571-649).  Note: the source has no
architecture / endianness / word-size gate here; only a parse failure
disables it. -/
def process_eh_frame_hdr (parse : Option ParsedObj) (file_data : List Nat)
    (is_compress use_be : Bool) : List Nat :=
  match parse with
  | none => file_data
  | some obj =>
    let image_base := imageBase obj
    let patches := ehCollectPatches obj
    patches.foldl (fun out p =>
      if is_compress then
        match ehCompressField image_base p.field_va (readU32LE out p.fo) with
        | none => out
        | some w => writeU32 out p.fo w use_be
      else
        writeU32LE out p.fo (ehDecompressField image_base p.field_va (readU32 out p.fo use_be)))
      file_data

/-! ### ELF typed-table transforms (main.rs lines 206-425)

`i64` values are carried as their two's-complement 64-bit patterns; wrapping
add/sub on `u64`/`i64` is `% 2^64` (`% 2^32` for the 32-bit fields). -/

/-- Zigzag of an `i64` pattern: `((add_d << 1) ^ (add_d >> 63)) as u64`
(main.rs line 266); the arithmetic right shift by 63 is all-ones exactly for
negative values. -/
def zigzag64 (x : Nat) : Nat :=
  ((x * 2) % 2^64) ^^^ (if x < 2^63 then 0 else 2^64 - 1)

/-- Inverse zigzag: `((u >> 1) as i64) ^ (-((u & 1) as i64))`
(main.rs line 277). -/
def unzigzag64 (u : Nat) : Nat :=
  (u / 2) ^^^ (if u % 2 = 1 then 2^64 - 1 else 0)

/-- `transform_rela24` (main.rs lines 243-290). -/
def transform_rela24 (buf : List Nat) (is_compress : Bool) : List Nat :=
  if buf.length % 24 ≠ 0 then buf
  else
    ((List.range (buf.length / 24)).foldl
      (fun (st : List Nat × Nat × Nat × Nat) i =>
        match st with
        | (b, prev_off, prev_sym, prev_add) =>
          let p := i * 24
          let off := readU64LE b p
          let info := readU64LE b (p + 8)
          let add := readU64LE b (p + 16)
          let sym := info / 2^32
          let typ := info % 2^32
          if is_compress then
            let off_d := if i = 0 then off else (off + 2^64 - prev_off % 2^64) % 2^64
            let sym_d := if i = 0 then sym else (sym + 2^32 - prev_sym % 2^32) % 2^32
            let add_d := if i = 0 then add else (add + 2^64 - prev_add % 2^64) % 2^64
            let b := writeU64LE b p off_d
            let b := writeU64LE b (p + 8) (sym_d * 2^32 + typ)
            let b := writeU64LE b (p + 16) (zigzag64 add_d)
            (b, off, sym, add)
          else
            let off_v := if i = 0 then off else (prev_off + off) % 2^64
            let sym_d := info / 2^32
            let sym_v := if i = 0 then sym_d else (prev_sym + sym_d) % 2^32
            let add_d := unzigzag64 add
            let add_v := if i = 0 then add_d else (prev_add + add_d) % 2^64
            let b := writeU64LE b p off_v
            let b := writeU64LE b (p + 8) (sym_v * 2^32 + typ)
            let b := writeU64LE b (p + 16) add_v
            (b, off_v, sym_v, add_v))
      (buf, 0, 0, 0)).1

/-- `transform_rel16` (main.rs lines 292-328). -/
def transform_rel16 (buf : List Nat) (is_compress : Bool) : List Nat :=
  if buf.length % 16 ≠ 0 then buf
  else
    ((List.range (buf.length / 16)).foldl
      (fun (st : List Nat × Nat × Nat) i =>
        match st with
        | (b, prev_off, prev_sym) =>
          let p := i * 16
          let off := readU64LE b p
          let info := readU64LE b (p + 8)
          let sym := info / 2^32
          let typ := info % 2^32
          if is_compress then
            let off_d := if i = 0 then off else (off + 2^64 - prev_off % 2^64) % 2^64
            let sym_d := if i = 0 then sym else (sym + 2^32 - prev_sym % 2^32) % 2^32
            let b := writeU64LE b p off_d
            let b := writeU64LE b (p + 8) (sym_d * 2^32 + typ)
            (b, off, sym)
          else
            let off_v := if i = 0 then off else (prev_off + off) % 2^64
            let sym_d := info / 2^32
            let sym_v := if i = 0 then sym_d else (prev_sym + sym_d) % 2^32
            let b := writeU64LE b p off_v
            let b := writeU64LE b (p + 8) (sym_v * 2^32 + typ)
            (b, off_v, sym_v))
      (buf, 0, 0)).1

/-- `transform_sym24` (main.rs lines 330-369). -/
def transform_sym24 (buf : List Nat) (is_compress : Bool) : List Nat :=
  if buf.length % 24 ≠ 0 then buf
  else
    ((List.range (buf.length / 24)).foldl
      (fun (st : List Nat × Nat × Nat × Nat) i =>
        match st with
        | (b, prev_name, prev_val, prev_sz) =>
          let p := i * 24
          let nm := readU32LE b p
          let vl := readU64LE b (p + 8)
          let sz := readU64LE b (p + 16)
          if is_compress then
            let name_d := if i = 0 then nm else (nm + 2^32 - prev_name % 2^32) % 2^32
            let val_d := if i = 0 then vl else (vl + 2^64 - prev_val % 2^64) % 2^64
            let sz_d := if i = 0 then sz else (sz + 2^64 - prev_sz % 2^64) % 2^64
            let b := writeU32LE b p name_d
            let b := writeU64LE b (p + 8) val_d
            let b := writeU64LE b (p + 16) sz_d
            (b, nm, vl, sz)
          else
            let name_v := if i = 0 then nm else (prev_name + nm) % 2^32
            let val_v := if i = 0 then vl else (prev_val + vl) % 2^64
            let sz_v := if i = 0 then sz else (prev_sz + sz) % 2^64
            let b := writeU32LE b p name_v
            let b := writeU64LE b (p + 8) val_v
            let b := writeU64LE b (p + 16) sz_v
            (b, name_v, val_v, sz_v))
      (buf, 0, 0, 0)).1

/-- `transform_relr8` (main.rs lines 371-392). -/
def transform_relr8 (buf : List Nat) (is_compress : Bool) : List Nat :=
  if buf.length % 8 ≠ 0 then buf
  else
    ((List.range (buf.length / 8)).foldl
      (fun (st : List Nat × Nat) i =>
        match st with
        | (b, prev_base) =>
          let p := i * 8
          let val := readU64LE b p
          if val % 2 = 0 then
            if is_compress then
              let delta := if i = 0 then val else (val + 2^64 - prev_base % 2^64) % 2^64
              (writeU64LE b p delta, val)
            else
              let base := if i = 0 then val else (prev_base + val) % 2^64
              (writeU64LE b p base, base)
          else (b, prev_base))
      (buf, 0)).1

/-- `transform_dynamic16` (main.rs lines 394-425). -/
def transform_dynamic16 (buf : List Nat) (is_compress : Bool) : List Nat :=
  if buf.length % 16 ≠ 0 then buf
  else
    ((List.range (buf.length / 16)).foldl
      (fun (st : List Nat × Nat × Nat) i =>
        match st with
        | (b, prev_tag, prev_val) =>
          let p := i * 16
          let tag := readU64LE b p
          let val := readU64LE b (p + 8)
          if is_compress then
            let tag_d := if i = 0 then tag else (tag + 2^64 - prev_tag % 2^64) % 2^64
            let val_d := if i = 0 then val else (val + 2^64 - prev_val % 2^64) % 2^64
            let b := writeU64LE b p tag_d
            let b := writeU64LE b (p + 8) val_d
            (b, tag, val)
          else
            let tag_v := if i = 0 then tag else (prev_tag + tag) % 2^64
            let val_v := if i = 0 then val else (prev_val + val) % 2^64
            let b := writeU64LE b p tag_v
            let b := writeU64LE b (p + 8) val_v
            (b, tag_v, val_v))
      (buf, 0, 0)).1

/-- `process_elf_tables` (main.rs lines 206-241).  The architecture /
endianness / word-size gate (line 212) guards the whole section loop. -/
def process_elf_tables (parse : Option ParsedObj) (file_data : List Nat)
    (is_compress : Bool) : List Nat :=
  match parse with
  | none => file_data
  | some obj =>
    if obj.isX8664 && obj.isLE && obj.is64 then
      obj.sections.foldl (fun out sec =>
        match sec.fileRange with
        | none => out
        | some (file_off, size) =>
          if out.length < file_off + size then out
          else
            let slice := (out.drop file_off).take size
            let slice2 :=
              if strStartsWith sec.name ".rela" then transform_rela24 slice is_compress
              else if strStartsWith sec.name ".rel" && !(strStartsWith sec.name ".relr") then
                transform_rel16 slice is_compress
              else if sec.name = ".dynsym" ∨ sec.name = ".symtab" then
                transform_sym24 slice is_compress
              else if strStartsWith sec.name ".relr" then transform_relr8 slice is_compress
              else if sec.name = ".dynamic" then transform_dynamic16 slice is_compress
              else slice
            setRange out file_off slice2) file_data
    else file_data

/-! ### Jump-table discovery (main.rs lines 428-549) -/

structure JumpTable where
  fo : Nat
  count : Nat
deriving DecidableEq

/-- Candidate target of one 4-byte entry at byte offset `i` of a section with
address `sec_addr` (main.rs lines 477-479): `entry_va + (val as i64 as u64)`
with `u64` wraparound. -/
def jtTargetVa (sec_addr : Nat) (data : List Nat) (i : Nat) : Nat :=
  ((sec_addr + i) % 2^64 + sext32 (readU32LE data i)) % 2^64

/-- The interval test of main.rs line 481:
`target_va >= text_va && target_va < text_va + text_size`. -/
def jtCandidate (text_va text_size sec_addr : Nat) (data : List Nat) (i : Nat) : Bool :=
  decide (text_va ≤ jtTargetVa sec_addr data i ∧
    jtTargetVa sec_addr data i < (text_va + text_size) % 2^64)

/-- Scan loop over one section (main.rs lines 473-489).  The source iterates
byte offsets `0, 4, 8, ...` below `data.len() - 3`; those are exactly `4*k`
for `k < data.len() / 4`, and `idxs` carries the remaining entry indices. -/
def jtScanGo (text_va text_size sec_addr file_off : Nat) (data : List Nat)
    (idxs : List Nat) (run_start run_len : Nat) (acc : List JumpTable) : List JumpTable :=
  match idxs with
  | [] => if 4 ≤ run_len then acc ++ [⟨run_start, run_len⟩] else acc
  | k :: rest =>
    if jtCandidate text_va text_size sec_addr data (4 * k) then
      let rs := if run_len = 0 then file_off + 4 * k else run_start
      jtScanGo text_va text_size sec_addr file_off data rest rs (run_len + 1) acc
    else
      if 4 ≤ run_len then
        jtScanGo text_va text_size sec_addr file_off data rest run_start 0
          (acc ++ [⟨run_start, run_len⟩])
      else jtScanGo text_va text_size sec_addr file_off data rest run_start 0 acc

def jtScan (text_va text_size sec_addr file_off : Nat) (data : List Nat) : List JumpTable :=
  jtScanGo text_va text_size sec_addr file_off data (List.range (data.length / 4)) 0 0 []

/-- Side-table serialization (main.rs lines 509-518).  `t.fo - prev_fo` is a
usize subtraction, modelled with wraparound modulo `2^64`. -/
def jtMetaOut (tables : List JumpTable) : List Nat :=
  (tables.foldl (fun (st : List Nat × Nat) t =>
      (st.1 ++ write_varint ((t.fo + 2^64 - st.2 % 2^64) % 2^64) ++ write_varint t.count, t.fo))
    (write_varint tables.length, 0)).1

/-- Side-table parsing loop (main.rs lines 499-506); later `read_varint`
failures propagate with `?`. -/
def jtReadTables (meta : List Nat) (n : Nat) (prev_fo : Nat) (acc : List JumpTable) :
    Except String (List JumpTable) :=
  match n with
  | 0 => .ok acc
  | n + 1 =>
    match read_varint meta with
    | .error e => .error e
    | .ok (delta_fo, rest) =>
      match read_varint rest with
      | .error e => .error e
      | .ok (count, rest2) =>
        jtReadTables rest2 n (prev_fo + delta_fo) (acc ++ [⟨prev_fo + delta_fo, count⟩])

/-- Entry rewrite loop (main.rs lines 529-546).  The source indexes
`out[p..p+4]` unguarded and panics out of range; the total model leaves the
buffer unchanged there (see `setRange`). -/
def jtRewrite (o : ParsedObj) (image_base : Nat) (tables : List JumpTable)
    (out0 : List Nat) (is_compress use_be : Bool) : List Nat :=
  tables.foldl (fun out t =>
    (List.range t.count).foldl (fun out i =>
      let p := t.fo + i * 4
      let entry_va := (fileToVa o p).getD 0
      if is_compress then
        let val := readU32LE out p
        let target_va :=
          (((entry_va + sext32 val) % 2^64 + (2^64 - image_base % 2^64)) % 2^64) % 2^32
        writeU32 out p target_va use_be
      else
        let v := readU32 out p use_be
        let orig_rel := (((v + image_base) % 2^64 + (2^64 - entry_va % 2^64)) % 2^64) % 2^32
        writeU32LE out p orig_rel) out) out0

/-- `process_jump_tables` (main.rs lines 434-549).  Gate: parse failure or a
non-x86-64 architecture (endianness and word size are *not* checked here), or
a missing/empty `.text`. -/
def process_jump_tables (parse : Option ParsedObj) (file_data : List Nat)
    (is_compress use_be : Bool) (jt_meta_in : Option (List Nat)) :
    Except String (List Nat × List Nat × List JumpTable) :=
  match parse with
  | none => .ok (file_data, [], [])
  | some obj =>
    if !obj.isX8664 then .ok (file_data, [], [])
    else
      let image_base := imageBase obj
      let text := obj.sections.find? (fun sec => sec.name = ".text")
      let text_va := (text.map ObjSection.addr).getD 0
      let text_size := (text.map ObjSection.size).getD 0
      if text_size = 0 then .ok (file_data, [], [])
      else
        if is_compress then
          let tables := obj.sections.foldl (fun acc sec =>
            if sec.name ≠ ".rodata" ∧ sec.name ≠ ".data.rel.ro" then acc
            else
              match sec.fileRange, sec.sdata with
              | some (file_off, sec_size), some data =>
                if data.length ≠ sec_size then acc
                else acc ++ jtScan text_va text_size sec.addr file_off data
              | _, _ => acc) []
          .ok (jtRewrite obj image_base tables file_data true use_be, jtMetaOut tables, tables)
        else
          match read_varint (jt_meta_in.getD []) with
          | .error _ => .ok (file_data, [], [])
          | .ok (num_tables, rest) =>
            match jtReadTables rest num_tables 0 [] with
            | .error e => .error e
            | .ok tables =>
              .ok (jtRewrite obj image_base tables file_data false use_be, [], tables)

/-! ### Instruction patcher (main.rs lines 653-725) -/

structure Patch where
  fo : Nat
  next_ip : Nat
deriving DecidableEq

/-- `process_binary` (main.rs lines 659-725).  The per-section streaming
decode (lines 682-705, the external `iced-x86` decoder) is an oracle
`decoder`; the source's final bounds check `fo + 4 <= skel.len()` on every
candidate patch is retained, as are the section guards and the
arch/endian/word-size gate (line 667). -/
def process_binary (parse : Option ParsedObj) (decoder : ObjSection → List Patch)
    (file_data : List Nat) (is_compress use_be : Bool) : List Nat :=
  match parse with
  | none => file_data
  | some obj =>
    let image_base := imageBase obj
    if obj.isX8664 && obj.isLE && obj.is64 then
      let patches := obj.sections.foldl (fun acc sec =>
        if sec.kind ≠ SecKind.text then acc
        else
          match sec.fileRange, sec.sdata with
          | some (file_off, file_size), some data =>
            if data.length ≠ file_size then acc
            else if file_data.length < file_off + data.length then acc
            else acc ++ (decoder sec).filter (fun p => p.fo + 4 ≤ file_data.length)
          | _, _ => acc) []
      patches.foldl (fun skel p =>
        if is_compress then
          let cur := readU32LE skel p.fo
          let dest := (cur + p.next_ip) % 2^32
          let norm := (dest + 2^32 - image_base % 2^32) % 2^32
          writeU32 skel p.fo norm use_be
        else
          let norm := readU32 skel p.fo use_be
          let dest := (norm + image_base % 2^32) % 2^32
          let orig := (dest + 2^32 - p.next_ip % 2^32) % 2^32
          writeU32LE skel p.fo orig) file_data
    else file_data

/-! ### Stream router (main.rs lines 729-796) -/

/-- The category priority chain of `split_streams` (main.rs lines 740-767). -/
def sectionCategory (kind : SecKind) (name : String) : Nat :=
  if kind = SecKind.text then CAT_CODE
  else if name = ".strtab" ∨ name = ".dynstr" ∨ strContains name "str" then CAT_STR
  else if strContains name "eh_frame" ∨ strContains name "gcc_except" then CAT_EH
  else if strStartsWith name ".relr" then CAT_RELR8
  else if strStartsWith name ".rela" then CAT_RELA24
  else if name = ".symtab" ∨ name = ".dynsym" then CAT_SYM24
  else if strStartsWith name ".rel" then CAT_REL16
  else if name = ".dynamic" then CAT_DYNAMIC16
  else if strContains name "cst16" then CAT_S16
  else if name = ".gnu.version" then CAT_S2
  else if ([".got", ".got.plt", ".data.rel.ro", ".init_array", ".fini_array", ".plt.got"].any
      (fun p => strStartsWith name p)) ∨ strContains name "array" ∨ strContains name "cst8" then
    CAT_S8
  else if strContains name "hash" ∨ strContains name "cst4" then CAT_S4
  else CAT_OTHER

/-- Label vector of `split_streams` (main.rs lines 730-776): all `OTHER`,
overwritten per section when the parse succeeds, then jump tables overwrite
with `JT4`. -/
def routerLabels (parse : Option ParsedObj) (file_data : List Nat)
    (jump_tables : List JumpTable) : List Nat :=
  let labels := List.replicate file_data.length CAT_OTHER
  let labels :=
    match parse with
    | none => labels
    | some obj => obj.sections.foldl (fun labels sec =>
        match sec.fileRange with
        | none => labels
        | some (fo, size) =>
          if file_data.length < fo + size then labels
          else setRange labels fo (List.replicate size (sectionCategory sec.kind sec.name)))
        labels
  jump_tables.foldl (fun labels t =>
    (List.range' t.fo (t.count * 4)).foldl (fun labels i =>
      if i < labels.length then labels.set i CAT_JT4 else labels) labels) labels

/-- Run-length encoding of the label vector (main.rs lines 778-791). -/
def runsOfLabels (labels : List Nat) : List Nat :=
  match labels with
  | [] => []
  | l0 :: rest =>
    let st := rest.foldl (fun (st : List Nat × Nat × Nat) cat =>
      if cat = st.2.1 then (st.1, st.2.1, st.2.2 + 1)
      else (st.1 ++ write_varint ((st.2.2 <<< 4) ||| st.2.1), cat, 1)) ([], l0, 1)
    st.1 ++ write_varint ((st.2.2 <<< 4) ||| st.2.1)

/-- Per-category byte streams (main.rs lines 793-794). -/
def streamsOfLabels (labels data : List Nat) : List (List Nat) :=
  (labels.zip data).foldl (fun streams lb =>
    streams.set lb.1 ((streams.getD lb.1 []) ++ [lb.2])) (List.replicate CAT_COUNT [])

/-- `split_streams` (main.rs lines 729-796). -/
def split_streams (parse : Option ParsedObj) (file_data : List Nat)
    (jump_tables : List JumpTable) : List Nat × List (List Nat) :=
  let labels := routerLabels parse file_data jump_tables
  (runsOfLabels labels, streamsOfLabels labels file_data)

/-! ### Decompress reassembly loop (main.rs lines 914-938) -/

theorem read_varint_go_length : ∀ (buf : List Nat) (shift val v : Nat) (rest : List Nat),
    read_varint_go buf shift val = .ok (v, rest) → rest.length < buf.length := by
  intro buf
  induction buf with
  | nil => intro _ _ _ _ h; simp [read_varint_go] at h
  | cons b t ih =>
    intro shift val v rest h
    simp only [read_varint_go] at h
    split at h
    · cases h; simp
    · split at h
      · cases h
      · exact Nat.lt_trans (ih _ _ _ _ h) (by simp)

theorem read_varint_length {buf : List Nat} {v : Nat} {rest : List Nat}
    (h : read_varint buf = .ok (v, rest)) : rest.length < buf.length :=
  read_varint_go_length buf 0 0 v rest h

/-- The reconstruction loop of `decompress` (main.rs lines 919-932): state is
the unread run bytes, the per-category streams, the per-category cursors, the
output buffer `skel` and the write position `skel_pos`. -/
def reassembleGo (runsData : List Nat) (streams : List (List Nat)) (cursors : List Nat)
    (skel : List Nat) (skelPos : Nat) : Except String (List Nat × List Nat × Nat) :=
  if runsData = [] then .ok (skel, cursors, skelPos)
  else
    match hr : read_varint runsData with
    | .error e => .error e
    | .ok (val, rest) =>
      let cat := val &&& 15
      let count := val >>> 4
      if CAT_COUNT ≤ cat then .error "bad category"
      else if skel.length < skelPos + count then .error "runs exceed output length"
      else
        let c := cursors.getD cat 0
        if (streams.getD cat []).length < c + count then
          .error "stream underflow while reconstructing"
        else
          reassembleGo rest streams (cursors.set cat (c + count))
            (setRange skel skelPos (((streams.getD cat []).drop c).take count)) (skelPos + count)
termination_by runsData.length
decreasing_by exact read_varint_length hr

/-- Lines 914-938 of `decompress`: allocate a zeroed buffer of the declared
original length, run the reconstruction loop, then check that every category
stream was fully consumed.  Returns the reassembled image together with the
final write position. -/
def decompress_reassemble (origLen : Nat) (runsData : List Nat)
    (streams : List (List Nat)) : Except String (List Nat × Nat) :=
  match reassembleGo runsData streams (List.replicate CAT_COUNT 0)
      (List.replicate origLen 0) 0 with
  | .error e => .error e
  | .ok (skel, cursors, skelPos) =>
    if (List.range CAT_COUNT).all (fun cat => cursors.getD cat 0 == (streams.getD cat []).length)
    then .ok (skel, skelPos)
    else .error "stream has extra bytes"

/-! ### Command-line dispatch (main.rs lines 946-981) -/

/-- Outcome of `main`'s argument handling, I/O assumed to succeed.
`panicOutOfBounds` is the `&args[3]` index panic (process aborts with the
panic exit status, not 2). -/
inductive CliAct where
  | usageExit2 : CliAct
  | panicOutOfBounds : CliAct
  | compareCmd : String → CliAct
  | compressCmd : String → String → CliAct
  | decompressCmd : String → String → CliAct
deriving DecidableEq

/-- `main` (main.rs lines 946-981): `args` includes the program name at
index 0. -/
def cliDispatch (args : List String) : CliAct :=
  if args.length < 3 then .usageExit2
  else
    let cmd := args.getD 1 ""
    let path := args.getD 2 ""
    if cmd = "compare" then .compareCmd path
    else if cmd = "compress" then
      match args[3]? with
      | some outPath => .compressCmd path outPath
      | none => .panicOutOfBounds
    else if cmd = "decompress" then
      match args[3]? with
      | some outPath => .decompressCmd path outPath
      | none => .panicOutOfBounds
    else .usageExit2

instance instDecEqExceptFesh {ε α : Type} [DecidableEq ε] [DecidableEq α] :
    DecidableEq (Except ε α) := fun x y =>
  match x, y with
  | .ok a, .ok b =>
    if h : a = b then isTrue (by rw [h]) else isFalse (by intro hc; cases hc; exact h rfl)
  | .error e, .error f =>
    if h : e = f then isTrue (by rw [h]) else isFalse (by intro hc; cases hc; exact h rfl)
  | .ok _, .error _ => isFalse (by intro hc; cases hc)
  | .error _, .ok _ => isFalse (by intro hc; cases hc)

example : write_varint 300 = [172, 2] := by decide
example : read_varint [172, 2, 9] = .ok (300, [9]) := by decide
example : shuffle_bytes [1,2,3,4,5] 2 = [1,3,2,4,5] := by decide
example : unshuffle_bytes [1,3,2,4,5] 2 = [1,2,3,4,5] := by decide
example : cliDispatch ["fesh", "compress", "a"] = .panicOutOfBounds := by decide

/-! ### Concrete objects for claim C2

An `.eh_frame_hdr` section (version 1, `eh_frame_ptr` encoding omitted,
`fde_count` encoding `udata4`, table encoding `0x1b` = sdata4|pcrel) whose
single binary-search-table row sits at VAs `2^32 + 5` and `2^32 + 9` in an
image with base 0, so `abs_va` of both 32-bit fields (both stored as 0)
overflows `u32`. -/

def ehSkipData : List Nat := [1, 255, 3, 27, 1,0,0,0, 0,0,0,0, 0,0,0,0]

def ehSkipObj : ParsedObj :=
  { isX8664 := true, isLE := true, is64 := true,
    sections := [{ name := ".eh_frame_hdr", kind := .other, addr := 2^32 - 3, size := 16,
                   fileRange := some (0, 16), sdata := some ehSkipData }],
    segments := [0] }

/-- Claim C2: on compress `process_eh_frame_hdr` skips exactly the entries
whose `abs` does not fit 32 bits, on decompress it restores
`(value + image_base) - base_va`, and the two directions are mutually inverse
on every such section.  This theorem evaluates the embedded code at the
failing input: with image base 0 and base VA `2^32 + 5` the compress
direction skips the field (value 0 kept), yet the decompress direction still
applies the inverse and turns 0 into `2^32 - 5 = 0xFFFFFFFB`; at the section
level, decompress applied to the compress output of `ehSkipData` does not
reproduce `ehSkipData`.  The inverse does not skip under the compress-side
predicate, so the directions are not mutually inverse. -/
theorem c2_eh_skip_not_inverted :
    ehCompressField 0 (2^32 + 5) 0 = none ∧
    ehDecompressField 0 (2^32 + 5) 0 = 4294967291 ∧
    ehDecompressField 0 (2^32 + 5) 0 ≠ 0 ∧
    process_eh_frame_hdr (some ehSkipObj) ehSkipData true false = ehSkipData ∧
    process_eh_frame_hdr (some ehSkipObj)
      (process_eh_frame_hdr (some ehSkipObj) ehSkipData true false) false false ≠ ehSkipData := by
  refine ⟨by decide, by decide, by decide, by decide, ?_⟩
  decide

/-! ### Concrete objects for claim C3

Three parse results that are not "a 64-bit little-endian x86-64 object", each
exercising a binary-aware stage: a wrong-architecture object with a
`.dynamic` section (the router), a wrong-architecture object with a valid
`.eh_frame_hdr` (the EH patcher has no gate at all), and an x86-64 object
with wrong endianness and word size carrying a jump table (the jump-table
detector checks only the architecture). -/

def dynOnlyObj : ParsedObj :=
  { isX8664 := false, isLE := true, is64 := true,
    sections := [{ name := ".dynamic", kind := .other, addr := 0, size := 16,
                   fileRange := some (0, 16), sdata := none }],
    segments := [0] }

def ehArmData : List Nat := [1, 255, 3, 59, 1,0,0,0, 4,0,0,0, 8,0,0,0]

def ehArmObj : ParsedObj :=
  { isX8664 := false, isLE := false, is64 := false,
    sections := [{ name := ".eh_frame_hdr", kind := .other, addr := 100, size := 16,
                   fileRange := some (0, 16), sdata := some ehArmData }],
    segments := [0] }

def jtBeData : List Nat :=
  [0,240,255,255, 252,239,255,255, 248,239,255,255, 244,239,255,255]

def jtBeObj : ParsedObj :=
  { isX8664 := true, isLE := false, is64 := false,
    sections := [{ name := ".text", kind := .text, addr := 4096, size := 256,
                   fileRange := none, sdata := none },
                 { name := ".rodata", kind := .other, addr := 8192, size := 16,
                   fileRange := some (0, 16), sdata := some jtBeData }],
    segments := [4096] }

/-- Claim C3, counterexample: for an input that parses as a valid object but
not as a 64-bit little-endian x86-64 one, the router does *not* label every
byte `OTHER` (a wrong-architecture object's `.dynamic` section is labelled
`DYNAMIC16`), the EH-frame-hdr patcher is *not* the identity (it has no
architecture gate), and the jump-table detector is *not* the identity for an
x86-64 object with the wrong endianness and word size (it checks only the
architecture). -/
theorem c3_counterexample :
    routerLabels (some dynOnlyObj) (List.replicate 16 0) []
        = List.replicate 16 CAT_DYNAMIC16 ∧
    CAT_DYNAMIC16 ≠ CAT_OTHER ∧
    process_eh_frame_hdr (some ehArmObj) ehArmData true false ≠ ehArmData ∧
    process_jump_tables (some jtBeObj) jtBeData true false none
        = .ok (List.replicate 16 0, [1, 0, 4], [⟨0, 4⟩]) ∧
    List.replicate 16 (0 : Nat) ≠ jtBeData := by
  refine ⟨by decide, by decide, by decide, by decide, by decide⟩

/-- Claim C3 (amended): when the object parse *fails*, every binary-aware
transform is the identity and the router labels every byte `OTHER`; when the
parse succeeds with the wrong architecture, endianness or word size, the
instruction patcher and the typed-table transformer are the identity (they
check all three), and the jump-table detector is the identity whenever the
architecture is not x86-64 (its only check). -/
theorem c3_parse_failure_identity :
    (∀ (data : List Nat) (cmp be : Bool) (dec : ObjSection → List Patch)
        (meta : Option (List Nat)),
      process_binary none dec data cmp be = data ∧
      process_eh_frame_hdr none data cmp be = data ∧
      process_elf_tables none data cmp = data ∧
      process_jump_tables none data cmp be meta = .ok (data, [], []) ∧
      routerLabels none data [] = List.replicate data.length CAT_OTHER) ∧
    (∀ (obj : ParsedObj) (data : List Nat) (cmp be : Bool) (dec : ObjSection → List Patch),
      (obj.isX8664 && obj.isLE && obj.is64) = false →
      process_binary (some obj) dec data cmp be = data ∧
      process_elf_tables (some obj) data cmp = data) ∧
    (∀ (obj : ParsedObj) (data : List Nat) (cmp be : Bool) (meta : Option (List Nat)),
      obj.isX8664 = false →
      process_jump_tables (some obj) data cmp be meta = .ok (data, [], [])) := by
  refine ⟨?_, ?_, ?_⟩
  · intro data cmp be dec meta
    refine ⟨rfl, rfl, rfl, rfl, ?_⟩
    simp [routerLabels]
  · intro obj data cmp be dec hgate
    constructor
    · simp [process_binary, hgate]
    · simp [process_elf_tables, hgate]
  · intro obj data cmp be meta hx
    simp [process_jump_tables, hx]

/-- Witness for `c3_parse_failure_identity` at concrete inputs. -/
theorem c3_parse_failure_identity_witness :
    (process_eh_frame_hdr none [5, 6] true false = [5, 6] ∧
      routerLabels none [5, 6] [] = List.replicate 2 CAT_OTHER) ∧
    process_elf_tables (some dynOnlyObj) [5, 6] true = [5, 6] ∧
    process_jump_tables (some dynOnlyObj) [5, 6] true false none = .ok ([5, 6], [], []) := by
  refine ⟨⟨?_, ?_⟩, ?_, ?_⟩
  · exact ((c3_parse_failure_identity.1 [5, 6] true false (fun _ => []) none).2).1
  · exact ((c3_parse_failure_identity.1 [5, 6] true false (fun _ => []) none).2).2.2.2
  · exact (c3_parse_failure_identity.2.1 dynOnlyObj [5, 6] true false (fun _ => [])
      (by decide)).2
  · exact c3_parse_failure_identity.2.2 dynOnlyObj [5, 6] true false none (by decide)

/-! ### Claim C8: command-line handling -/

/-- Claim C8, counterexample: `compress IN` with the OUTPUT argument missing
does not exit 2 (it panics on the out-of-bounds `args[3]` index), and an
invocation with surplus arguments does not exit 2 either (the extras are
ignored). -/
theorem c8_counterexample :
    cliDispatch ["fesh", "compress", "in.bin"] = .panicOutOfBounds ∧
    cliDispatch ["fesh", "compress", "in.bin"] ≠ .usageExit2 ∧
    cliDispatch ["fesh", "compress", "a", "b", "c"] = .compressCmd "a" "b" ∧
    cliDispatch ["fesh", "compress", "a", "b", "c"] ≠ .usageExit2 := by
  refine ⟨by decide, by decide, by decide, by decide⟩

/-- Claim C8 (amended): fewer than three argv entries (program name included)
exit 2, as does an unknown subcommand; but a missing OUTPUT for
`compress`/`decompress` aborts with an index panic rather than exit 2, and
surplus arguments are ignored rather than rejected. -/
theorem c8_cli_usage :
    (∀ args : List String, args.length < 3 → cliDispatch args = .usageExit2) ∧
    (∀ args : List String, 3 ≤ args.length →
      args.getD 1 "" ≠ "compare" → args.getD 1 "" ≠ "compress" →
      args.getD 1 "" ≠ "decompress" → cliDispatch args = .usageExit2) ∧
    (∀ a0 p : String, cliDispatch [a0, "compress", p] = .panicOutOfBounds ∧
      cliDispatch [a0, "decompress", p] = .panicOutOfBounds) ∧
    (∀ (a0 p o : String) (rest : List String),
      cliDispatch (a0 :: "compress" :: p :: o :: rest) = .compressCmd p o) := by
  refine ⟨?_, ?_, ?_, ?_⟩
  · intro args h
    simp [cliDispatch, h]
  · intro args hlen h1 h2 h3
    simp only [List.getD, List.get?_eq_getElem?] at h1 h2 h3
    simp [cliDispatch, Nat.not_lt.mpr hlen, h1, h2, h3]
  · intro a0 p
    constructor <;> simp [cliDispatch]
  · intro a0 p o rest
    simp [cliDispatch]

/-! ### Bitwise bridges and varint lemmas -/

theorem land_two_pow_sub_one (a n : Nat) : a &&& (2^n - 1) = a % 2^n := by
  apply Nat.eq_of_testBit_eq
  intro i
  rw [Nat.testBit_land, Nat.testBit_two_pow_sub_one, Nat.testBit_mod_two_pow]
  exact Bool.and_comm _ _

theorem land127 (a : Nat) : a &&& 127 = a % 128 := by
  have := land_two_pow_sub_one a 7
  norm_num at this
  exact this

theorem land128_of_lt {b : Nat} (h : b < 128) : b &&& 128 = 0 := by
  rw [show (128 : Nat) = 2^7 by norm_num, Nat.and_two_pow,
    Nat.testBit_eq_false_of_lt (by norm_num at h ⊢; exact h)]
  rfl

theorem land128_of_ge {b : Nat} (h1 : 128 ≤ b) (h2 : b < 256) : b &&& 128 = 128 := by
  rw [show (128 : Nat) = 2^7 by norm_num, Nat.and_two_pow]
  have hb : b / 2^7 = 1 := by norm_num; omega
  rw [Nat.testBit_to_div_mod, hb]
  rfl

/-- Bits below `s` and bits at or above `s` combine by addition. -/
theorem lor_mul_pow_eq_add (s a b : Nat) (h : a < 2^s) : a ||| b * 2^s = a + b * 2^s := by
  apply Nat.eq_of_testBit_eq
  intro j
  rw [Nat.testBit_lor]
  have hadd : a + b * 2^s = 2^s * b + a := by ring
  have hmul : b * 2^s = 2^s * b + 0 := by ring
  rw [hadd, hmul, Nat.testBit_mul_pow_two_add b h j,
    Nat.testBit_mul_pow_two_add b (Nat.pos_pow_of_pos s (by norm_num)) j]
  by_cases hj : j < s
  · simp [hj]
  · simp [hj, Nat.testBit_eq_false_of_lt (Nat.lt_of_lt_of_le h (Nat.pow_le_pow_right
      (by norm_num) (Nat.le_of_not_lt hj)))]

/-- A continuation step of the `read_varint` loop on a byte with the high bit
set. -/
theorem read_varint_go_cont (b : Nat) (rest : List Nat) (shift acc : Nat)
    (h1 : 128 ≤ b) (h2 : b < 256) (h3 : shift + 7 < 64) (h4 : acc < 2^shift) :
    read_varint_go (b :: rest) shift acc
      = read_varint_go rest (shift + 7) (acc + (b % 128) * 2^shift) := by
  have hmask : (b &&& 127) <<< shift % 2^64 = (b % 128) * 2^shift := by
    rw [land127, Nat.shiftLeft_eq]
    apply Nat.mod_eq_of_lt
    calc b % 128 * 2^shift < 128 * 2^shift :=
          (Nat.mul_lt_mul_right (Nat.pos_pow_of_pos shift (by norm_num))).mpr
            (Nat.mod_lt b (by norm_num))
    _ = 2^(shift + 7) := by rw [Nat.pow_add]; ring
    _ ≤ 2^64 := Nat.pow_le_pow_right (by norm_num) (by omega)
  simp only [read_varint_go]
  rw [hmask, lor_mul_pow_eq_add shift acc (b % 128) h4,
    if_neg (by rw [land128_of_ge h1 h2]; norm_num), if_neg (by omega)]

/-- The terminal step of the `read_varint` loop on a byte with the high bit
clear. -/
theorem read_varint_go_last (b : Nat) (rest : List Nat) (shift acc : Nat) (hb : b < 128) :
    read_varint_go (b :: rest) shift acc
      = .ok (acc ||| ((b &&& 127) <<< shift) % 2^64, rest) := by
  simp only [read_varint_go]
  rw [if_pos (land128_of_lt hb)]

/-- Round-trip of the varint codec, generalized over the loop state. -/
theorem read_write_varint_aux :
    ∀ (fuel v : Nat), v ≤ fuel → ∀ (shift acc : Nat) (extra : List Nat),
    v < 2^(64 - shift) → shift ≤ 63 → acc < 2^shift →
    read_varint_go (write_varint_go fuel v ++ extra) shift acc
      = .ok (acc + v * 2^shift, extra) := by
  intro fuel
  induction fuel with
  | zero =>
    intro v hv shift acc extra hbound hshift hacc
    have hv0 : v = 0 := Nat.le_zero.mp hv
    subst hv0
    simp only [write_varint_go, List.cons_append, List.nil_append]
    rw [show (0 : Nat) &&& 127 = 0 by decide,
      read_varint_go_last 0 extra shift acc (by norm_num)]
    simp [land127]
  | succ fuel ih =>
    intro v hv shift acc extra hbound hshift hacc
    simp only [write_varint_go]
    by_cases hrec : v >>> 7 ≠ 0
    · rw [if_pos hrec]
      have hv128 : 128 ≤ v := by
        rcases Nat.lt_or_ge v 128 with h | h
        · exfalso; apply hrec; rw [Nat.shiftRight_eq_div_pow]; norm_num; omega
        · exact h
      have hbyte : (v &&& 127) ||| 128 = v % 128 + 128 := by
        rw [land127]
        have := lor_mul_pow_eq_add 7 (v % 128) 1 (by norm_num; exact Nat.mod_lt v (by norm_num))
        norm_num at this
        exact this
      have hs7 : shift + 7 < 64 := by
        have h27 : (2:Nat)^7 < 2^(64 - shift) :=
          lt_of_le_of_lt (by norm_num; exact hv128) hbound
        have := (Nat.pow_lt_pow_iff_right (by norm_num : 1 < 2)).mp h27
        omega
      have hcont := read_varint_go_cont (v % 128 + 128)
        (write_varint_go fuel (v >>> 7) ++ extra) shift acc (by omega)
        (by have := Nat.mod_lt v (show 0 < 128 by norm_num); omega) hs7 hacc
      rw [List.cons_append, hbyte, hcont]
      have hmod : (v % 128 + 128) % 128 = v % 128 := by omega
      rw [hmod]
      have hdiv : v >>> 7 = v / 128 := by rw [Nat.shiftRight_eq_div_pow]
      have hrecbound : v / 128 < 2^(64 - (shift + 7)) := by
        rw [Nat.div_lt_iff_lt_mul (by norm_num : (0:Nat) < 128)]
        calc v < 2^(64 - shift) := hbound
        _ = 2^(64 - (shift + 7)) * 128 := by
              rw [show (128 : Nat) = 2^7 by norm_num, ← Nat.pow_add]
              congr 1
              omega
      have haccbound : acc + v % 128 * 2^shift < 2^(shift + 7) := by
        have h1 : v % 128 * 2^shift ≤ 127 * 2^shift :=
          Nat.mul_le_mul_right _ (by omega)
        calc acc + v % 128 * 2^shift < 2^shift + 127 * 2^shift := by omega
        _ = 2^(shift + 7) := by rw [Nat.pow_add]; ring
      have := ih (v >>> 7) (by
          rw [hdiv]
          have : v / 128 < v := Nat.div_lt_self (by omega) (by norm_num)
          omega)
        (shift + 7) (acc + v % 128 * 2^shift) extra (by rw [hdiv]; exact hrecbound)
        (by omega) haccbound
      rw [this, hdiv]
      congr 2
      have hsplit : v = 128 * (v / 128) + v % 128 := (Nat.div_add_mod v 128).symm
      calc acc + v % 128 * 2^shift + v / 128 * 2^(shift + 7)
          = acc + (v % 128 + 128 * (v / 128)) * 2^shift := by rw [Nat.pow_add]; ring
      _ = acc + v * 2^shift := by rw [Nat.add_comm (v % 128) _, ← hsplit]
    · rw [if_neg hrec]
      push_neg at hrec
      have hvlt : v < 128 := by
        by_contra hge
        push_neg at hge
        rw [Nat.shiftRight_eq_div_pow] at hrec
        norm_num at hrec
        omega
      rw [List.cons_append, read_varint_go_last _ _ shift acc (by
        rw [land127]; exact lt_of_le_of_lt (Nat.mod_le _ _) hvlt)]
      congr 2
      rw [land127, land127, Nat.mod_eq_of_lt (Nat.mod_lt v (by norm_num)),
        Nat.mod_eq_of_lt hvlt, Nat.shiftLeft_eq,
        Nat.mod_eq_of_lt (by
          calc v * 2^shift < 2^(64 - shift) * 2^shift :=
                (Nat.mul_lt_mul_right (Nat.pos_pow_of_pos shift (by norm_num))).mpr hbound
          _ = 2^64 := by rw [← Nat.pow_add]; congr 1; omega),
        lor_mul_pow_eq_add shift acc v hacc]

/-- Claim C7: for every `u64` value, `read_varint` at the start of the bytes
produced by `write_varint` returns that value and consumes exactly those
bytes (the suffix `extra` is returned unread), with the 7-bit little-endian
group encoding and continuation bit in the high bit of every non-terminal
byte (as defined by `write_varint`). -/
theorem c7_varint_roundtrip :
    ∀ v : Nat, v < 2^64 → ∀ extra : List Nat,
    read_varint (write_varint v ++ extra) = .ok (v, extra) := by
  intro v hv extra
  have := read_write_varint_aux v v (Nat.le_refl v) 0 0 extra (by norm_num; exact hv)
    (by norm_num) (by norm_num)
  simpa [read_varint, write_varint] using this

/-- Witness for `c7_varint_roundtrip` at `v = 300` with a trailing byte. -/
theorem c7_varint_roundtrip_witness :
    (300 : Nat) < 2^64 ∧ read_varint (write_varint 300 ++ [9]) = .ok (300, [9]) := by
  exact ⟨by norm_num, c7_varint_roundtrip 300 (by norm_num) [9]⟩

/-- Claim C10: `read_varint` accepts every 10-byte sequence whose first nine
bytes have the continuation bit set and whose tenth byte has it clear,
returning the accumulated value modulo `2^64`: only bit 0 of the tenth byte
reaches the result (it lands at bit 63); bits 1..7 are shifted past bit 63
and silently discarded instead of being reported as a varint overflow. -/
theorem c10_varint_tenth_byte_truncation :
    ∀ b0 b1 b2 b3 b4 b5 b6 b7 b8 b9 : Nat, ∀ rest : List Nat,
    128 ≤ b0 → b0 < 256 → 128 ≤ b1 → b1 < 256 → 128 ≤ b2 → b2 < 256 →
    128 ≤ b3 → b3 < 256 → 128 ≤ b4 → b4 < 256 → 128 ≤ b5 → b5 < 256 →
    128 ≤ b6 → b6 < 256 → 128 ≤ b7 → b7 < 256 → 128 ≤ b8 → b8 < 256 → b9 < 128 →
    read_varint ([b0, b1, b2, b3, b4, b5, b6, b7, b8, b9] ++ rest)
      = .ok (b0 % 128 + b1 % 128 * 2^7 + b2 % 128 * 2^14 + b3 % 128 * 2^21 +
          b4 % 128 * 2^28 + b5 % 128 * 2^35 + b6 % 128 * 2^42 + b7 % 128 * 2^49 +
          b8 % 128 * 2^56 + b9 % 2 * 2^63, rest) ∧
    b0 % 128 + b1 % 128 * 2^7 + b2 % 128 * 2^14 + b3 % 128 * 2^21 +
        b4 % 128 * 2^28 + b5 % 128 * 2^35 + b6 % 128 * 2^42 + b7 % 128 * 2^49 +
        b8 % 128 * 2^56 + b9 % 2 * 2^63
      = (b0 % 128 + b1 % 128 * 2^7 + b2 % 128 * 2^14 + b3 % 128 * 2^21 +
          b4 % 128 * 2^28 + b5 % 128 * 2^35 + b6 % 128 * 2^42 + b7 % 128 * 2^49 +
          b8 % 128 * 2^56 + b9 % 128 * 2^63) % 2^64 := by
  intro b0 b1 b2 b3 b4 b5 b6 b7 b8 b9 rest
  intro l0 u0 l1 u1 l2 u2 l3 u3 l4 u4 l5 u5 l6 u6 l7 u7 l8 u8 h9
  constructor
  · show read_varint_go _ 0 0 = _
    rw [List.cons_append, read_varint_go_cont b0 _ 0 0 l0 u0 (by norm_num) (by norm_num)]
    rw [List.cons_append, read_varint_go_cont b1 _ 7 _ l1 u1 (by norm_num) (by omega)]
    rw [List.cons_append, read_varint_go_cont b2 _ 14 _ l2 u2 (by norm_num) (by omega)]
    rw [List.cons_append, read_varint_go_cont b3 _ 21 _ l3 u3 (by norm_num) (by omega)]
    rw [List.cons_append, read_varint_go_cont b4 _ 28 _ l4 u4 (by norm_num) (by omega)]
    rw [List.cons_append, read_varint_go_cont b5 _ 35 _ l5 u5 (by norm_num) (by omega)]
    rw [List.cons_append, read_varint_go_cont b6 _ 42 _ l6 u6 (by norm_num) (by omega)]
    rw [List.cons_append, read_varint_go_cont b7 _ 49 _ l7 u7 (by norm_num) (by omega)]
    rw [List.cons_append, read_varint_go_cont b8 _ 56 _ l8 u8 (by norm_num) (by omega)]
    rw [List.cons_append, read_varint_go_last b9 _ 63 _ h9]
    congr 2
    rw [land127]
    have hshift : ((b9 % 128) <<< 63) % 2^64 = b9 % 2 * 2^63 := by
      rw [Nat.shiftLeft_eq]
      have h1 : b9 % 128 * 2^63 % 2^64 = b9 % 128 % 2 * 2^63 := by
        rw [show (2:Nat)^64 = 2 * 2^63 by ring]
        exact Nat.mul_mod_mul_right (2^63) (b9 % 128) 2
      rw [h1, Nat.mod_mod_of_dvd b9 (by norm_num : (2:Nat) ∣ 128)]
    rw [hshift, lor_mul_pow_eq_add 63 _ (b9 % 2) (by omega)]
    omega
  · omega

/-- Witness for `c10_varint_tenth_byte_truncation`: nine `0xFF` bytes
followed by `0x7F` decode to `2^64 - 1` instead of an overflow error. -/
theorem c10_varint_tenth_byte_truncation_witness :
    read_varint [255, 255, 255, 255, 255, 255, 255, 255, 255, 127]
      = .ok (18446744073709551615, []) := by
  have h := (c10_varint_tenth_byte_truncation 255 255 255 255 255 255 255 255 255 127 []
    (by norm_num) (by norm_num) (by norm_num) (by norm_num) (by norm_num) (by norm_num)
    (by norm_num) (by norm_num) (by norm_num) (by norm_num) (by norm_num) (by norm_num)
    (by norm_num) (by norm_num) (by norm_num) (by norm_num) (by norm_num) (by norm_num)
    (by norm_num)).1
  simpa using h

/-! ### Helper lemmas for the byte transpose

The nested write loops of `shuffle_bytes` / `unshuffle_bytes` are folds of
single-position writes; `writeAll` abstracts such a write list, and the loops
are rewritten into `writeAll` form to reason per position. -/

def writeAll (out : List Nat) (ws : List (Nat × Nat)) : List Nat :=
  ws.foldl (fun o pv => o.set pv.1 pv.2) out

theorem writeAll_cons (o : List Nat) (p : Nat × Nat) (rest : List (Nat × Nat)) :
    writeAll o (p :: rest) = writeAll (o.set p.1 p.2) rest := rfl

theorem writeAll_append (o : List Nat) (ws1 ws2 : List (Nat × Nat)) :
    writeAll o (ws1 ++ ws2) = writeAll (writeAll o ws1) ws2 := by
  simp [writeAll, List.foldl_append]

theorem writeAll_length (o : List Nat) (ws : List (Nat × Nat)) :
    (writeAll o ws).length = o.length := by
  induction ws generalizing o with
  | nil => rfl
  | cons p rest ih => rw [writeAll_cons, ih, List.length_set]

theorem writeAll_getElem?_not_mem {ws : List (Nat × Nat)} {k : Nat}
    (h : ∀ pv ∈ ws, pv.1 ≠ k) (o : List Nat) : (writeAll o ws)[k]? = o[k]? := by
  induction ws generalizing o with
  | nil => rfl
  | cons p rest ih =>
    rw [writeAll_cons, ih (fun pv hm => h pv (List.mem_cons_of_mem _ hm))]
    exact List.getElem?_set_ne (h p (List.mem_cons_self _ _))

theorem writeAll_getElem?_mem {ws : List (Nat × Nat)} {k v : Nat} :
    (k, v) ∈ ws → (∀ pv ∈ ws, pv.1 = k → pv.2 = v) → ∀ o : List Nat, k < o.length →
    (writeAll o ws)[k]? = some v := by
  induction ws with
  | nil => intro hmem; cases hmem
  | cons p rest ih =>
    intro hmem huniq o hk
    rw [writeAll_cons]
    by_cases hrest : ∃ pv ∈ rest, pv.1 = k
    · obtain ⟨⟨q1, q2⟩, hq, hq1⟩ := hrest
      have hq1' : q1 = k := hq1
      subst hq1'
      have hv2 : q2 = v := huniq (q1, q2) (List.mem_cons_of_mem _ hq) rfl
      subst hv2
      exact ih hq (fun pv hm h1 => huniq pv (List.mem_cons_of_mem _ hm) h1) _
        (by rw [List.length_set]; exact hk)
    · push_neg at hrest
      rcases List.mem_cons.mp hmem with heq | hin
      · rw [← heq]
        rw [writeAll_getElem?_not_mem hrest]
        exact List.getElem?_set_self hk
      · exact absurd rfl (hrest (k, v) hin)

theorem foldl_set_eq_writeAll (l : List Nat) (pos val : Nat → Nat) (out : List Nat) :
    l.foldl (fun o j => o.set (pos j) (val j)) out
      = writeAll out (l.map fun j => (pos j, val j)) := by
  induction l generalizing out with
  | nil => rfl
  | cons a t ih => rw [List.foldl_cons, List.map_cons, writeAll_cons, ih]

theorem getElem?_eq_some_getD {l : List Nat} {n : Nat} (h : n < l.length) :
    l[n]? = some (l.getD n 0) := by
  rw [List.getD_eq_getElem?_getD, List.getElem?_eq_getElem h]
  rfl

/-- The main double loop of `shuffle_bytes` as a `writeAll`. -/
theorem shuffle_main_eq_writeAll (data : List Nat) (stride count : Nat) :
    ∀ (is : List Nat) (out : List Nat),
    is.foldl (fun out i =>
      (List.range stride).foldl (fun out j =>
        out.set (j * count + i) (data.getD (i * stride + j) 0)) out) out
    = writeAll out (is.flatMap (fun i => (List.range stride).map (fun j =>
        (j * count + i, data.getD (i * stride + j) 0)))) := by
  intro is
  induction is with
  | nil => intro out; rfl
  | cons a t ih =>
    intro out
    rw [List.foldl_cons, List.flatMap_cons, writeAll_append, ih,
      foldl_set_eq_writeAll (List.range stride) (fun j => j * count + a)
        (fun j => data.getD (a * stride + j) 0) out]

/-- The main double loop of `unshuffle_bytes` as a `writeAll`. -/
theorem unshuffle_main_eq_writeAll (data : List Nat) (stride count : Nat) :
    ∀ (is : List Nat) (out : List Nat),
    is.foldl (fun out i =>
      (List.range stride).foldl (fun out j =>
        out.set (i * stride + j) (data.getD (j * count + i) 0)) out) out
    = writeAll out (is.flatMap (fun i => (List.range stride).map (fun j =>
        (i * stride + j, data.getD (j * count + i) 0)))) := by
  intro is
  induction is with
  | nil => intro out; rfl
  | cons a t ih =>
    intro out
    rw [List.foldl_cons, List.flatMap_cons, writeAll_append, ih,
      foldl_set_eq_writeAll (List.range stride) (fun j => a * stride + j)
        (fun j => data.getD (j * count + a) 0) out]

/-- `shuffle_bytes` in `writeAll` form (non-degenerate case). -/
theorem shuffle_bytes_eq_writeAll (data : List Nat) (stride : Nat)
    (h : ¬(data.isEmpty ∨ stride ≤ 1)) :
    shuffle_bytes data stride
      = writeAll
          (writeAll (List.replicate data.length 0)
            ((List.range (data.length / stride)).flatMap (fun i =>
              (List.range stride).map (fun j =>
                (j * (data.length / stride) + i, data.getD (i * stride + j) 0)))))
          ((List.range' ((data.length / stride) * stride)
            (data.length - (data.length / stride) * stride)).map (fun i =>
              (i, data.getD i 0))) := by
  simp only [shuffle_bytes]
  rw [if_neg h]
  rw [shuffle_main_eq_writeAll data stride (data.length / stride),
    foldl_set_eq_writeAll (List.range' ((data.length / stride) * stride)
      (data.length - (data.length / stride) * stride)) (fun i => i)
      (fun i => data.getD i 0)]

/-- `unshuffle_bytes` in `writeAll` form (non-degenerate case). -/
theorem unshuffle_bytes_eq_writeAll (data : List Nat) (stride : Nat)
    (h : ¬(data.isEmpty ∨ stride ≤ 1)) :
    unshuffle_bytes data stride
      = writeAll
          (writeAll (List.replicate data.length 0)
            ((List.range (data.length / stride)).flatMap (fun i =>
              (List.range stride).map (fun j =>
                (i * stride + j, data.getD (j * (data.length / stride) + i) 0)))))
          ((List.range' ((data.length / stride) * stride)
            (data.length - (data.length / stride) * stride)).map (fun i =>
              (i, data.getD i 0))) := by
  simp only [unshuffle_bytes]
  rw [if_neg h]
  rw [unshuffle_main_eq_writeAll data stride (data.length / stride),
    foldl_set_eq_writeAll (List.range' ((data.length / stride) * stride)
      (data.length - (data.length / stride) * stride)) (fun i => i)
      (fun i => data.getD i 0)]

theorem shuffle_bytes_length (data : List Nat) (stride : Nat) :
    (shuffle_bytes data stride).length = data.length := by
  by_cases h : data.isEmpty ∨ stride ≤ 1
  · rw [shuffle_bytes, if_pos h]
  · rw [shuffle_bytes_eq_writeAll data stride h, writeAll_length, writeAll_length,
      List.length_replicate]

theorem unshuffle_bytes_length (data : List Nat) (stride : Nat) :
    (unshuffle_bytes data stride).length = data.length := by
  by_cases h : data.isEmpty ∨ stride ≤ 1
  · rw [unshuffle_bytes, if_pos h]
  · rw [unshuffle_bytes_eq_writeAll data stride h, writeAll_length, writeAll_length,
      List.length_replicate]

/-- Position characterization of `shuffle_bytes` in the transposed region:
`out[j*count + i] = in[i*stride + j]`. -/
theorem shuffle_bytes_getElem?_main (data : List Nat) (stride : Nat) (h2 : 2 ≤ stride)
    {i j : Nat} (hi : i < data.length / stride) (hj : j < stride) :
    (shuffle_bytes data stride)[j * (data.length / stride) + i]? = data[i * stride + j]? := by
  have hdeg : ¬(data.isEmpty ∨ stride ≤ 1) := by
    intro hcase
    rcases hcase with he | hs
    · have h0 : data.length = 0 := by simpa [List.isEmpty_iff_length_eq_zero] using he
      rw [h0] at hi
      simp at hi
    · omega
  have hcnt0 : 0 < data.length / stride := lt_of_le_of_lt (Nat.zero_le i) hi
  have hmLL : (data.length / stride) * stride ≤ data.length := Nat.div_mul_le_self _ _
  have hklt : j * (data.length / stride) + i < (data.length / stride) * stride := by
    calc j * (data.length / stride) + i < j * (data.length / stride) + (data.length / stride) :=
          by omega
    _ = (j + 1) * (data.length / stride) := by ring
    _ ≤ stride * (data.length / stride) :=
          Nat.mul_le_mul_right (data.length / stride) (Nat.succ_le_of_lt hj)
    _ = (data.length / stride) * stride := Nat.mul_comm _ _
  have hidx : i * stride + j < data.length := by
    have h1 : i * stride + j < (i + 1) * stride := by
      calc i * stride + j < i * stride + stride := by omega
      _ = (i + 1) * stride := by ring
    have h3 : (i + 1) * stride ≤ (data.length / stride) * stride :=
      Nat.mul_le_mul_right stride (Nat.succ_le_of_lt hi)
    omega
  rw [shuffle_bytes_eq_writeAll data stride hdeg]
  rw [writeAll_getElem?_not_mem (by
    intro pv hm
    obtain ⟨q, hq, hqe⟩ := List.mem_map.mp hm
    have hq1 : (data.length / stride) * stride ≤ q := (List.mem_range'_1.mp hq).1
    rw [← hqe]
    dsimp only []
    omega)]
  rw [writeAll_getElem?_mem (v := data.getD (i * stride + j) 0) ?memv ?uniqv _ ?klen]
  case memv =>
    exact List.mem_flatMap.mpr ⟨i, List.mem_range.mpr hi,
      List.mem_map.mpr ⟨j, List.mem_range.mpr hj, rfl⟩⟩
  case uniqv =>
    intro pv hm hkey
    obtain ⟨i2, hi2, hmap⟩ := List.mem_flatMap.mp hm
    obtain ⟨j2, hj2, hje⟩ := List.mem_map.mp hmap
    rw [← hje] at hkey ⊢
    dsimp only [] at hkey ⊢
    have hi2' : i2 < data.length / stride := List.mem_range.mp hi2
    have hmod : ∀ a b : Nat, b < data.length / stride →
        (a * (data.length / stride) + b) % (data.length / stride) = b := by
      intro a b hb
      rw [Nat.mul_comm a (data.length / stride), Nat.mul_add_mod]
      exact Nat.mod_eq_of_lt hb
    have e1 : i2 = i := by
      have ha := hmod j2 i2 hi2'
      have hb := hmod j i hi
      rw [hkey] at ha
      rw [hb] at ha
      exact ha.symm
    subst e1
    have e2 : j2 = j := by
      have : j2 * (data.length / stride) = j * (data.length / stride) :=
        Nat.add_right_cancel hkey
      exact Nat.eq_of_mul_eq_mul_right hcnt0 this
    subst e2
    rfl
  case klen =>
    simp only [writeAll_length, List.length_replicate]
    omega
  rw [getElem?_eq_some_getD hidx]

/-- Position characterization of `shuffle_bytes` in the trailing region. -/
theorem shuffle_bytes_getElem?_tail (data : List Nat) (stride : Nat) {k : Nat}
    (hk : (data.length / stride) * stride ≤ k) :
    (shuffle_bytes data stride)[k]? = data[k]? := by
  by_cases hdeg : data.isEmpty ∨ stride ≤ 1
  · rw [shuffle_bytes, if_pos hdeg]
  · rw [shuffle_bytes_eq_writeAll data stride hdeg]
    by_cases hkL : k < data.length
    · rw [writeAll_getElem?_mem (v := data.getD k 0) ?memt ?uniqt _ ?klent]
      case memt =>
        exact List.mem_map.mpr ⟨k, List.mem_range'_1.mpr ⟨hk, by omega⟩, rfl⟩
      case uniqt =>
        intro pv hm hkey
        obtain ⟨q, _, hqe⟩ := List.mem_map.mp hm
        rw [← hqe] at hkey ⊢
        dsimp only [] at hkey ⊢
        rw [hkey]
      case klent =>
        simp only [writeAll_length, List.length_replicate]
        exact hkL
      rw [getElem?_eq_some_getD hkL]
    · rw [List.getElem?_eq_none (by
        simp only [writeAll_length, List.length_replicate]
        omega),
        List.getElem?_eq_none (by omega)]

/-- Position characterization of `unshuffle_bytes` in the transposed region:
`out[i*stride + j] = in[j*count + i]`. -/
theorem unshuffle_bytes_getElem?_main (data : List Nat) (stride : Nat) (h2 : 2 ≤ stride)
    {i j : Nat} (hi : i < data.length / stride) (hj : j < stride) :
    (unshuffle_bytes data stride)[i * stride + j]? = data[j * (data.length / stride) + i]? := by
  have hdeg : ¬(data.isEmpty ∨ stride ≤ 1) := by
    intro hcase
    rcases hcase with he | hs
    · have h0 : data.length = 0 := by simpa [List.isEmpty_iff_length_eq_zero] using he
      rw [h0] at hi
      simp at hi
    · omega
  have hcnt0 : 0 < data.length / stride := lt_of_le_of_lt (Nat.zero_le i) hi
  have hmLL : (data.length / stride) * stride ≤ data.length := Nat.div_mul_le_self _ _
  have hstr0 : 0 < stride := by omega
  have hklt : i * stride + j < (data.length / stride) * stride := by
    have h1 : i * stride + j < (i + 1) * stride := by
      calc i * stride + j < i * stride + stride := by omega
      _ = (i + 1) * stride := by ring
    have h3 : (i + 1) * stride ≤ (data.length / stride) * stride :=
      Nat.mul_le_mul_right stride (Nat.succ_le_of_lt hi)
    omega
  have hidx : j * (data.length / stride) + i < data.length := by
    have h1 : j * (data.length / stride) + i < (j + 1) * (data.length / stride) := by
      calc j * (data.length / stride) + i
          < j * (data.length / stride) + (data.length / stride) := by omega
      _ = (j + 1) * (data.length / stride) := by ring
    have h3 : (j + 1) * (data.length / stride) ≤ stride * (data.length / stride) :=
      Nat.mul_le_mul_right (data.length / stride) (Nat.succ_le_of_lt hj)
    have h4 : stride * (data.length / stride) = (data.length / stride) * stride :=
      Nat.mul_comm _ _
    omega
  rw [unshuffle_bytes_eq_writeAll data stride hdeg]
  rw [writeAll_getElem?_not_mem (by
    intro pv hm
    obtain ⟨q, hq, hqe⟩ := List.mem_map.mp hm
    have hq1 : (data.length / stride) * stride ≤ q := (List.mem_range'_1.mp hq).1
    rw [← hqe]
    dsimp only []
    omega)]
  rw [writeAll_getElem?_mem (v := data.getD (j * (data.length / stride) + i) 0)
    ?memv2 ?uniqv2 _ ?klen2]
  case memv2 =>
    exact List.mem_flatMap.mpr ⟨i, List.mem_range.mpr hi,
      List.mem_map.mpr ⟨j, List.mem_range.mpr hj, rfl⟩⟩
  case uniqv2 =>
    intro pv hm hkey
    obtain ⟨i2, hi2, hmap⟩ := List.mem_flatMap.mp hm
    obtain ⟨j2, hj2, hje⟩ := List.mem_map.mp hmap
    rw [← hje] at hkey ⊢
    dsimp only [] at hkey ⊢
    have hj2' : j2 < stride := List.mem_range.mp hj2
    have hmod : ∀ a b : Nat, b < stride → (a * stride + b) % stride = b := by
      intro a b hb
      rw [Nat.mul_comm a stride, Nat.mul_add_mod]
      exact Nat.mod_eq_of_lt hb
    have e1 : j2 = j := by
      have ha := hmod i2 j2 hj2'
      have hb := hmod i j hj
      rw [hkey] at ha
      rw [hb] at ha
      exact ha.symm
    subst e1
    have e2 : i2 = i := by
      have : i2 * stride = i * stride := Nat.add_right_cancel hkey
      exact Nat.eq_of_mul_eq_mul_right hstr0 this
    subst e2
    rfl
  case klen2 =>
    simp only [writeAll_length, List.length_replicate]
    omega
  rw [getElem?_eq_some_getD hidx]

/-- Position characterization of `unshuffle_bytes` in the trailing region. -/
theorem unshuffle_bytes_getElem?_tail (data : List Nat) (stride : Nat) {k : Nat}
    (hk : (data.length / stride) * stride ≤ k) :
    (unshuffle_bytes data stride)[k]? = data[k]? := by
  by_cases hdeg : data.isEmpty ∨ stride ≤ 1
  · rw [unshuffle_bytes, if_pos hdeg]
  · rw [unshuffle_bytes_eq_writeAll data stride hdeg]
    by_cases hkL : k < data.length
    · rw [writeAll_getElem?_mem (v := data.getD k 0) ?memt2 ?uniqt2 _ ?klent2]
      case memt2 =>
        exact List.mem_map.mpr ⟨k, List.mem_range'_1.mpr ⟨hk, by omega⟩, rfl⟩
      case uniqt2 =>
        intro pv hm hkey
        obtain ⟨q, _, hqe⟩ := List.mem_map.mp hm
        rw [← hqe] at hkey ⊢
        dsimp only [] at hkey ⊢
        rw [hkey]
      case klent2 =>
        simp only [writeAll_length, List.length_replicate]
        exact hkL
      rw [getElem?_eq_some_getD hkL]
    · rw [List.getElem?_eq_none (by
        simp only [writeAll_length, List.length_replicate]
        omega),
        List.getElem?_eq_none (by omega)]

/-- Claim C6: the transpose places byte `in[i*stride + j]` at
`out[j*count + i]` (`count = ⌊len/stride⌋`), copies the trailing bytes
unchanged, `unshuffle_bytes` after `shuffle_bytes` is the identity for every
data and stride, and stride ≤ 1 or empty input is the identity. -/
theorem c6_shuffle_transpose :
    ∀ (data : List Nat) (stride : Nat),
    unshuffle_bytes (shuffle_bytes data stride) stride = data ∧
    (∀ i j : Nat, 2 ≤ stride → i < data.length / stride → j < stride →
      (shuffle_bytes data stride)[j * (data.length / stride) + i]? = data[i * stride + j]?) ∧
    (∀ k : Nat, (data.length / stride) * stride ≤ k →
      (shuffle_bytes data stride)[k]? = data[k]?) ∧
    (stride ≤ 1 → shuffle_bytes data stride = data ∧ unshuffle_bytes data stride = data) ∧
    (shuffle_bytes ([] : List Nat) stride = [] ∧ unshuffle_bytes ([] : List Nat) stride = []) := by
  intro data stride
  refine ⟨?_, ?_, ?_, ?_, ?_, ?_⟩
  · by_cases hdeg : data.isEmpty ∨ stride ≤ 1
    · have h1 : shuffle_bytes data stride = data := by rw [shuffle_bytes, if_pos hdeg]
      have h2 : unshuffle_bytes data stride = data := by rw [unshuffle_bytes, if_pos hdeg]
      rw [h1, h2]
    · push_neg at hdeg
      obtain ⟨hne, hsgt⟩ := hdeg
      have hL0 : data.length ≠ 0 := by
        intro h0
        exact hne (by simpa [List.isEmpty_iff_length_eq_zero] using h0)
      have hs2 : 2 ≤ stride := by omega
      have hstr0 : 0 < stride := by omega
      have hlen : (shuffle_bytes data stride).length = data.length :=
        shuffle_bytes_length data stride
      apply List.ext_getElem?
      intro n
      by_cases hn : n < (data.length / stride) * stride
      · have hi : n / stride < data.length / stride := by
          rw [Nat.div_lt_iff_lt_mul hstr0]
          exact hn
        have hj : n % stride < stride := Nat.mod_lt n hstr0
        have hsplit : (n / stride) * stride + n % stride = n := by
          rw [Nat.mul_comm]
          exact Nat.div_add_mod n stride
        have hi2 : n / stride < (shuffle_bytes data stride).length / stride := by
          rw [hlen]
          exact hi
        calc (unshuffle_bytes (shuffle_bytes data stride) stride)[n]?
            = (unshuffle_bytes (shuffle_bytes data stride) stride)[
                (n / stride) * stride + n % stride]? := by rw [hsplit]
          _ = (shuffle_bytes data stride)[
                (n % stride) * ((shuffle_bytes data stride).length / stride) + n / stride]? :=
              unshuffle_bytes_getElem?_main _ stride hs2 hi2 hj
          _ = (shuffle_bytes data stride)[
                (n % stride) * (data.length / stride) + n / stride]? := by rw [hlen]
          _ = data[(n / stride) * stride + n % stride]? :=
              shuffle_bytes_getElem?_main data stride hs2 hi hj
          _ = data[n]? := by rw [hsplit]
      · have hm2 : ((shuffle_bytes data stride).length / stride) * stride ≤ n := by
          rw [hlen]
          omega
        calc (unshuffle_bytes (shuffle_bytes data stride) stride)[n]?
            = (shuffle_bytes data stride)[n]? :=
              unshuffle_bytes_getElem?_tail _ stride hm2
          _ = data[n]? := shuffle_bytes_getElem?_tail data stride (by omega)
  · intro i j hs2 hi hj
    exact shuffle_bytes_getElem?_main data stride hs2 hi hj
  · intro k hk
    exact shuffle_bytes_getElem?_tail data stride hk
  · intro hs1
    constructor
    · rw [shuffle_bytes, if_pos (Or.inr hs1)]
    · rw [unshuffle_bytes, if_pos (Or.inr hs1)]
  · rw [shuffle_bytes]
    rfl
  · rw [unshuffle_bytes]
    rfl

/-- Witness for `c6_shuffle_transpose` at `data = [1,2,3,4,5]`, `stride = 2`
(`count = 2`; tail byte 5 copied), plus the stride-1 identity. -/
theorem c6_shuffle_transpose_witness :
    unshuffle_bytes (shuffle_bytes [1, 2, 3, 4, 5] 2) 2 = [1, 2, 3, 4, 5] ∧
    (shuffle_bytes [1, 2, 3, 4, 5] 2)[1 * 2 + 0]? = ([1, 2, 3, 4, 5] : List Nat)[0 * 2 + 1]? ∧
    (shuffle_bytes [1, 2, 3, 4, 5] 2)[4]? = ([1, 2, 3, 4, 5] : List Nat)[4]? ∧
    shuffle_bytes [1, 2, 3, 4, 5] 1 = [1, 2, 3, 4, 5] := by
  refine ⟨(c6_shuffle_transpose [1, 2, 3, 4, 5] 2).1, ?_, ?_, ?_⟩
  · exact (c6_shuffle_transpose [1, 2, 3, 4, 5] 2).2.1 0 1 (by norm_num) (by norm_num)
      (by norm_num)
  · exact (c6_shuffle_transpose [1, 2, 3, 4, 5] 2).2.2.1 4 (by norm_num)
  · exact ((c6_shuffle_transpose [1, 2, 3, 4, 5] 1).2.2.2.1 (by norm_num)).1

/-! ### Helper lemmas for the jump-table scan -/

/-- The per-table property recorded by the scan: at least 4 entries, all of
them candidates, and the run is maximal (the entries bordering it on either
side are outside the section or fail the candidate test). -/
def JtGood (tv ts sa fo : Nat) (data : List Nat) (n : Nat) (t : JumpTable) : Prop :=
  4 ≤ t.count ∧ ∃ k0, t.fo = fo + 4 * k0 ∧ k0 + t.count ≤ n ∧
    (∀ j, j < t.count → jtCandidate tv ts sa data (4 * (k0 + j)) = true) ∧
    (k0 = 0 ∨ jtCandidate tv ts sa data (4 * (k0 - 1)) = false) ∧
    (k0 + t.count = n ∨ jtCandidate tv ts sa data (4 * (k0 + t.count)) = false)

theorem jtScanGo_good (tv ts sa fo : Nat) (data : List Nat) (n : Nat) :
    ∀ (m k run_start run_len : Nat) (acc : List JumpTable),
    k + m = n →
    (∀ t ∈ acc, JtGood tv ts sa fo data n t) →
    (run_len = 0 → (k = 0 ∨ jtCandidate tv ts sa data (4 * (k - 1)) = false)) →
    (0 < run_len → run_len ≤ k ∧ run_start = fo + 4 * (k - run_len) ∧
      (∀ j, k - run_len ≤ j → j < k → jtCandidate tv ts sa data (4 * j) = true) ∧
      (k - run_len = 0 ∨ jtCandidate tv ts sa data (4 * (k - run_len - 1)) = false)) →
    ∀ t ∈ jtScanGo tv ts sa fo data (List.range' k m) run_start run_len acc,
      JtGood tv ts sa fo data n t := by
  intro m
  induction m with
  | zero =>
    intro k run_start run_len acc hkm hacc hrl0 hrlpos t ht
    simp only [List.range', jtScanGo] at ht
    split at ht
    · rename_i h4
      rcases List.mem_append.mp ht with h | h
      · exact hacc t h
      · have hteq : t = ⟨run_start, run_len⟩ := by simpa using h
        subst hteq
        obtain ⟨hle, hrs, hcand, hleft⟩ := hrlpos (by omega)
        dsimp only [JtGood]
        refine ⟨h4, k - run_len, hrs, by omega, ?_, hleft, Or.inl (by omega)⟩
        intro j hj
        exact hcand (k - run_len + j) (by omega) (by omega)
    · exact hacc t ht
  | succ m ih =>
    intro k run_start run_len acc hkm hacc hrl0 hrlpos t ht
    rw [List.range'_succ] at ht
    simp only [jtScanGo] at ht
    split at ht
    · rename_i hck
      refine ih (k + 1) _ (run_len + 1) acc (by omega) hacc (by omega) ?_ t ht
      intro _
      refine ⟨?_, ?_, ?_, ?_⟩
      · rcases Nat.eq_zero_or_pos run_len with h0 | hpos
        · omega
        · have := (hrlpos hpos).1; omega
      · rcases Nat.eq_zero_or_pos run_len with h0 | hpos
        · rw [if_pos h0]
          omega
        · rw [if_neg (by omega)]
          rw [(hrlpos hpos).2.1]
          omega
      · intro j hj1 hj2
        rcases Nat.lt_or_ge j k with hjk | hjk
        · rcases Nat.eq_zero_or_pos run_len with h0 | hpos
          · omega
          · exact (hrlpos hpos).2.2.1 j (by omega) hjk
        · have : j = k := by omega
          subst this
          exact hck
      · rcases Nat.eq_zero_or_pos run_len with h0 | hpos
        · have := hrl0 h0
          simpa [h0] using this
        · have := (hrlpos hpos).2.2.2
          have h1 : k + 1 - (run_len + 1) = k - run_len := by omega
          rw [h1]
          exact this
    · rename_i hck
      have hckf : jtCandidate tv ts sa data (4 * k) = false := by
        cases hcb : jtCandidate tv ts sa data (4 * k)
        · rfl
        · exact absurd hcb hck
      split at ht
      · rename_i h4
        have hpush : ∀ t2 ∈ acc ++ [(⟨run_start, run_len⟩ : JumpTable)],
            JtGood tv ts sa fo data n t2 := by
          intro t2 ht2
          rcases List.mem_append.mp ht2 with h | h
          · exact hacc t2 h
          · have hteq : t2 = ⟨run_start, run_len⟩ := by simpa using h
            subst hteq
            obtain ⟨hle, hrs, hcand, hleft⟩ := hrlpos (by omega)
            dsimp only [JtGood]
            refine ⟨h4, k - run_len, hrs, by omega, ?_, hleft, Or.inr (by
              have heq : k - run_len + run_len = k := by omega
              rw [heq]
              exact hckf)⟩
            intro j hj
            exact hcand (k - run_len + j) (by omega) (by omega)
        refine ih (k + 1) run_start 0 _ (by omega) hpush ?_ (by omega) t ht
        intro _
        right
        simpa using hckf
      · refine ih (k + 1) run_start 0 acc (by omega) hacc ?_ (by omega) t ht
        intro _
        right
        simpa using hckf

/-- Claim C5: an entry at VA `E` with signed 32-bit value `v` is a jump-table
candidate iff `E + v` (sign-extended, wrapping) lies in the half-open
interval `[text_va, text_va + text_size)`; a target exactly at
`text_va + text_size` is classified outside; and every table recorded by the
scan is a maximal run of at least 4 consecutive candidates. -/
theorem c5_jump_table_detection :
    ∀ (tv ts sa fo : Nat) (data : List Nat), tv + ts < 2^64 →
    ((∀ i, jtCandidate tv ts sa data i = true ↔
        (tv ≤ jtTargetVa sa data i ∧ jtTargetVa sa data i < tv + ts)) ∧
     (∀ i, jtTargetVa sa data i = tv + ts → jtCandidate tv ts sa data i = false) ∧
     (∀ t ∈ jtScan tv ts sa fo data, 4 ≤ t.count ∧ ∃ k0, t.fo = fo + 4 * k0 ∧
        k0 + t.count ≤ data.length / 4 ∧
        (∀ j, j < t.count → jtCandidate tv ts sa data (4 * (k0 + j)) = true) ∧
        (k0 = 0 ∨ jtCandidate tv ts sa data (4 * (k0 - 1)) = false) ∧
        (k0 + t.count = data.length / 4 ∨
          jtCandidate tv ts sa data (4 * (k0 + t.count)) = false))) := by
  intro tv ts sa fo data hbound
  refine ⟨?_, ?_, ?_⟩
  · intro i
    simp only [jtCandidate, decide_eq_true_eq]
    omega
  · intro i hi
    simp only [jtCandidate, hi, decide_eq_false_iff_not]
    omega
  · intro t ht
    exact jtScanGo_good tv ts sa fo data (data.length / 4) (data.length / 4) 0 0 0 []
      (by omega) (by intro t2 ht2; cases ht2) (fun _ => Or.inl rfl) (by omega) t
      (by rw [← List.range_eq_range']; exact ht)

/-- Witness for `c5_jump_table_detection`: with `.text` covering `[0, 16)`
and a 16-byte section of zero entries at VA 0, every entry is a candidate
(targets 0, 4, 8, 12), an entry with value 16 targets `text_va + text_size`
exactly and is not a candidate, and the scan records the single maximal table
of 4 entries. -/
theorem c5_jump_table_detection_witness :
    (jtCandidate 0 16 0 (List.replicate 16 0) 0 = true ∧
      jtCandidate 0 16 0 [16, 0, 0, 0] 0 = false ∧
      (4 : Nat) ≤ (⟨0, 4⟩ : JumpTable).count) ∧
    (⟨0, 4⟩ : JumpTable) ∈ jtScan 0 16 0 0 (List.replicate 16 0) := by
  have h := c5_jump_table_detection 0 16 0 0 (List.replicate 16 0) (by norm_num)
  have h2 := c5_jump_table_detection 0 16 0 0 [16, 0, 0, 0] (by norm_num)
  have hmem : (⟨0, 4⟩ : JumpTable) ∈ jtScan 0 16 0 0 (List.replicate 16 0) := by decide
  refine ⟨⟨?_, ?_, ?_⟩, hmem⟩
  · exact (h.1 0).mpr (by decide)
  · exact h2.2.1 0 (by decide)
  · exact (h.2.2 ⟨0, 4⟩ hmem).1

/-! ### Helper lemmas for the reassembly loop -/

theorem setRange_length (l : List Nat) (p : Nat) (src : List Nat) :
    (setRange l p src).length = l.length := by
  unfold setRange
  split
  · simp
    omega
  · rfl

theorem setRange_getElem?_of_ge {l : List Nat} {p : Nat} {src : List Nat} {k : Nat}
    (h : p + src.length ≤ k) : (setRange l p src)[k]? = l[k]? := by
  unfold setRange
  split
  · rename_i hle
    have htp : (List.take p l).length = p := by simp; omega
    rw [List.append_assoc, List.getElem?_append_right (by omega), htp]
    rw [List.getElem?_append_right (by omega)]
    rw [List.getElem?_drop]
    congr 1
    omega
  · rfl

theorem getD_replicate_zero (n k : Nat) : (List.replicate n (0 : Nat)).getD k 0 = 0 := by
  rw [List.getD_eq_getElem?_getD, List.getElem?_replicate]
  split <;> rfl

/-- One error path of the reconstruction loop: an invalid category index. -/
theorem reassembleGo_badcat {runsData : List Nat} {v : Nat} {rest : List Nat}
    (streams : List (List Nat)) (cursors skel : List Nat) (p : Nat)
    (hr : read_varint runsData = .ok (v, rest)) (h : 15 ≤ v &&& 15) :
    reassembleGo runsData streams cursors skel p = .error "bad category" := by
  have hne : runsData ≠ [] := by
    intro he; subst he; simp [read_varint, read_varint_go] at hr
  rw [reassembleGo, if_neg hne]
  split
  · next e he => rw [hr] at he; cases he
  · next val rest2 hok =>
    rw [hr] at hok
    injection hok with hp
    injection hp with hv hrest
    subst hv
    rw [if_pos (by simpa [CAT_COUNT] using h)]

/-- One error path of the reconstruction loop: the run overruns the declared
original length. -/
theorem reassembleGo_overrun {runsData : List Nat} {v : Nat} {rest : List Nat}
    (streams : List (List Nat)) (cursors skel : List Nat) (p : Nat)
    (hr : read_varint runsData = .ok (v, rest)) (h1 : v &&& 15 < 15)
    (h2 : skel.length < p + (v >>> 4)) :
    reassembleGo runsData streams cursors skel p = .error "runs exceed output length" := by
  have hne : runsData ≠ [] := by
    intro he; subst he; simp [read_varint, read_varint_go] at hr
  rw [reassembleGo, if_neg hne]
  split
  · next e he => rw [hr] at he; cases he
  · next val rest2 hok =>
    rw [hr] at hok
    injection hok with hp
    injection hp with hv hrest
    subst hv
    rw [if_neg (by simpa [CAT_COUNT] using Nat.not_le.mpr h1), if_pos h2]

/-- One error path of the reconstruction loop: the source category stream has
too few bytes left. -/
theorem reassembleGo_underflow {runsData : List Nat} {v : Nat} {rest : List Nat}
    (streams : List (List Nat)) (cursors skel : List Nat) (p : Nat)
    (hr : read_varint runsData = .ok (v, rest)) (h1 : v &&& 15 < 15)
    (h2 : p + (v >>> 4) ≤ skel.length)
    (h3 : (streams.getD (v &&& 15) []).length < cursors.getD (v &&& 15) 0 + (v >>> 4)) :
    reassembleGo runsData streams cursors skel p
      = .error "stream underflow while reconstructing" := by
  have hne : runsData ≠ [] := by
    intro he; subst he; simp [read_varint, read_varint_go] at hr
  rw [reassembleGo, if_neg hne]
  split
  · next e he => rw [hr] at he; cases he
  · next val rest2 hok =>
    rw [hr] at hok
    injection hok with hp
    injection hp with hv hrest
    subst hv
    rw [if_neg (by simpa [CAT_COUNT] using Nat.not_le.mpr h1), if_neg (Nat.not_lt.mpr h2)]
    simp only []
    rw [if_pos h3]

/-- The successful-step shape of the reconstruction loop. -/
theorem reassembleGo_step {runsData : List Nat} {v : Nat} {rest : List Nat}
    (streams : List (List Nat)) (cursors skel : List Nat) (p : Nat)
    (hr : read_varint runsData = .ok (v, rest)) (h1 : v &&& 15 < 15)
    (h2 : p + (v >>> 4) ≤ skel.length)
    (h3 : cursors.getD (v &&& 15) 0 + (v >>> 4) ≤ (streams.getD (v &&& 15) []).length) :
    reassembleGo runsData streams cursors skel p
      = reassembleGo rest streams
          (cursors.set (v &&& 15) (cursors.getD (v &&& 15) 0 + (v >>> 4)))
          (setRange skel p
            (((streams.getD (v &&& 15) []).drop (cursors.getD (v &&& 15) 0)).take (v >>> 4)))
          (p + (v >>> 4)) := by
  have hne : runsData ≠ [] := by
    intro he; subst he; simp [read_varint, read_varint_go] at hr
  rw [reassembleGo, if_neg hne]
  split
  · next e he => rw [hr] at he; cases he
  · next val rest2 hok =>
    rw [hr] at hok
    injection hok with hp
    injection hp with hv hrest
    subst hv
    subst hrest
    rw [if_neg (by simpa [CAT_COUNT] using Nat.not_le.mpr h1), if_neg (Nat.not_lt.mpr h2)]
    simp only []
    rw [if_neg (Nat.not_lt.mpr h3)]

/-- Invariant of the reconstruction loop: the buffer length never changes, the
write position only advances, and everything at or beyond the write position
stays zero. -/
theorem reassembleGo_ok_invariant :
    ∀ (n : Nat) (runs : List Nat), runs.length ≤ n →
    ∀ (streams : List (List Nat)) (cursors skel : List Nat) (pos : Nat)
      (skel' cursors' : List Nat) (pos' : Nat),
    reassembleGo runs streams cursors skel pos = .ok (skel', cursors', pos') →
    (∀ k, pos ≤ k → skel.getD k 0 = 0) →
    skel'.length = skel.length ∧ pos ≤ pos' ∧ (∀ k, pos' ≤ k → skel'.getD k 0 = 0) := by
  intro n
  induction n with
  | zero =>
    intro runs hlen streams cursors skel pos skel' cursors' pos' hres hpre
    have : runs = [] := List.length_eq_zero.mp (Nat.le_zero.mp hlen)
    subst this
    rw [reassembleGo, if_pos rfl] at hres
    injection hres with h1
    injection h1 with hskel h2
    injection h2 with hcur hpos
    subst hskel; subst hpos
    exact ⟨rfl, Nat.le_refl _, hpre⟩
  | succ n ih =>
    intro runs hlen streams cursors skel pos skel' cursors' pos' hres hpre
    by_cases hne : runs = []
    · subst hne
      rw [reassembleGo, if_pos rfl] at hres
      injection hres with h1
      injection h1 with hskel h2
      injection h2 with hcur hpos
      subst hskel; subst hpos
      exact ⟨rfl, Nat.le_refl _, hpre⟩
    · rw [reassembleGo, if_neg hne] at hres
      split at hres
      · cases hres
      · next val rest2 hok =>
        simp only [CAT_COUNT] at hres
        split at hres
        · cases hres
        · split at hres
          · cases hres
          · split at hres
            · cases hres
            · rename_i hcat hover hunder
              have hrest : rest2.length ≤ n := by
                have := read_varint_length hok
                omega
              have hsrclen :
                  (((streams.getD (val &&& 15) []).drop (cursors.getD (val &&& 15) 0)).take
                    (val >>> 4)).length = val >>> 4 := by
                simp only [List.length_take, List.length_drop]
                omega
              have hpre2 : ∀ k, pos + val >>> 4 ≤ k →
                  (setRange skel pos
                    (((streams.getD (val &&& 15) []).drop (cursors.getD (val &&& 15) 0)).take
                      (val >>> 4))).getD k 0 = 0 := by
                intro k hk
                rw [List.getD_eq_getElem?_getD, setRange_getElem?_of_ge (by omega),
                  ← List.getD_eq_getElem?_getD]
                exact hpre k (by omega)
              obtain ⟨hlen2, hle2, hzero2⟩ := ih rest2 hrest _ _ _ _ _ _ _ hres hpre2
              refine ⟨by rw [hlen2, setRange_length], by omega, hzero2⟩

/-- Claim C4: during decompress, a run with an invalid category index, a run
that would exceed the declared original length, a run whose source category
stream lacks enough bytes, and a category stream not fully consumed when the
run stream ends, each surface as a decode error (and no reconstructed
image).  Stated over the embedded reassembly stage (main.rs lines 914-938)
with the xz-decoded category streams as parameters. -/
theorem c4_decode_error_paths :
    (∀ (runs : List Nat) (streams : List (List Nat)) (cursors skel : List Nat) (pos v : Nat)
        (rest : List Nat), read_varint runs = .ok (v, rest) → 15 ≤ v &&& 15 →
      reassembleGo runs streams cursors skel pos = .error "bad category") ∧
    (∀ (runs : List Nat) (streams : List (List Nat)) (cursors skel : List Nat) (pos v : Nat)
        (rest : List Nat), read_varint runs = .ok (v, rest) → v &&& 15 < 15 →
      skel.length < pos + (v >>> 4) →
      reassembleGo runs streams cursors skel pos = .error "runs exceed output length") ∧
    (∀ (runs : List Nat) (streams : List (List Nat)) (cursors skel : List Nat) (pos v : Nat)
        (rest : List Nat), read_varint runs = .ok (v, rest) → v &&& 15 < 15 →
      pos + (v >>> 4) ≤ skel.length →
      (streams.getD (v &&& 15) []).length < cursors.getD (v &&& 15) 0 + (v >>> 4) →
      reassembleGo runs streams cursors skel pos
        = .error "stream underflow while reconstructing") ∧
    (∀ (origLen : Nat) (runs : List Nat) (streams : List (List Nat))
        (skel cursors : List Nat) (pos : Nat),
      reassembleGo runs streams (List.replicate CAT_COUNT 0) (List.replicate origLen 0) 0
        = .ok (skel, cursors, pos) →
      (∃ cat, cat < CAT_COUNT ∧ cursors.getD cat 0 ≠ (streams.getD cat []).length) →
      decompress_reassemble origLen runs streams = .error "stream has extra bytes") ∧
    (∀ (origLen : Nat) (runs : List Nat) (streams : List (List Nat)) (e : String),
      reassembleGo runs streams (List.replicate CAT_COUNT 0) (List.replicate origLen 0) 0
        = .error e →
      decompress_reassemble origLen runs streams = .error e) := by
  refine ⟨?_, ?_, ?_, ?_, ?_⟩
  · intro runs streams cursors skel pos v rest hr h
    exact reassembleGo_badcat streams cursors skel pos hr h
  · intro runs streams cursors skel pos v rest hr h1 h2
    exact reassembleGo_overrun streams cursors skel pos hr h1 h2
  · intro runs streams cursors skel pos v rest hr h1 h2 h3
    exact reassembleGo_underflow streams cursors skel pos hr h1 h2 h3
  · intro origLen runs streams skel cursors pos hgo hex
    unfold decompress_reassemble
    simp only [hgo]
    rw [if_neg ?_]
    intro hall
    obtain ⟨cat, hcat, hneq⟩ := hex
    have := List.all_eq_true.mp hall cat (List.mem_range.mpr hcat)
    exact hneq (by simpa using this)
  · intro origLen runs streams e hgo
    unfold decompress_reassemble
    simp only [hgo]

/-- Witness for `c4_decode_error_paths` at concrete containers: a run varint
`31` (category 15), a run varint `16` (category 0, count 1) against a
zero-length output, the same run against an empty category stream, a leftover
byte in category 0 with an empty run stream, and a malformed run varint. -/
theorem c4_decode_error_paths_witness :
    reassembleGo [31] (List.replicate 15 []) (List.replicate 15 0) [] 0
      = .error "bad category" ∧
    reassembleGo [16] (List.replicate 15 []) (List.replicate 15 0) [] 0
      = .error "runs exceed output length" ∧
    reassembleGo [16] (List.replicate 15 []) (List.replicate 15 0) [0] 0
      = .error "stream underflow while reconstructing" ∧
    decompress_reassemble 0 [] ([7] :: List.replicate 14 [])
      = .error "stream has extra bytes" ∧
    decompress_reassemble 0 [255] (List.replicate 15 [])
      = .error "varint eof" := by
  refine ⟨?_, ?_, ?_, ?_, ?_⟩
  · exact c4_decode_error_paths.1 [31] _ _ _ 0 31 [] (by decide) (by decide)
  · exact c4_decode_error_paths.2.1 [16] _ _ _ 0 16 [] (by decide) (by decide) (by decide)
  · exact c4_decode_error_paths.2.2.1 [16] _ _ [0] 0 16 [] (by decide) (by decide) (by decide)
      (by decide)
  · refine c4_decode_error_paths.2.2.2.1 0 [] ([7] :: List.replicate 14 [])
      (List.replicate 0 0) (List.replicate CAT_COUNT 0) 0 ?_ ⟨0, by decide, by decide⟩
    rw [reassembleGo]
    rfl
  · refine c4_decode_error_paths.2.2.2.2 0 [255] (List.replicate 15 []) "varint eof" ?_
    rw [reassembleGo]
    rfl

/-- Claim C9: `decompress` never checks that the decoded runs cover the
declared original length.  Whenever the reassembly stage succeeds (which only
requires every category stream to be exactly consumed), it returns a buffer
of exactly `orig_len` bytes whose bytes from the final write position `T`
onwards are zero — even when `T < orig_len`. -/
theorem c9_no_coverage_check :
    ∀ (origLen : Nat) (runs : List Nat) (streams : List (List Nat)) (skel : List Nat) (T : Nat),
    decompress_reassemble origLen runs streams = .ok (skel, T) →
    skel.length = origLen ∧ ∀ k, T ≤ k → skel.getD k 0 = 0 := by
  intro origLen runs streams skel T h
  unfold decompress_reassemble at h
  cases hgo : reassembleGo runs streams (List.replicate CAT_COUNT 0)
      (List.replicate origLen 0) 0 with
  | error e => rw [hgo] at h; cases h
  | ok triple =>
    obtain ⟨skel0, cursors0, pos0⟩ := triple
    simp only [hgo] at h
    split at h
    · simp only [Except.ok.injEq, Prod.mk.injEq] at h
      obtain ⟨hskel, hpos⟩ := h
      subst hskel; subst hpos
      have := reassembleGo_ok_invariant runs.length runs (Nat.le_refl _) streams
        (List.replicate CAT_COUNT 0) (List.replicate origLen 0) 0 skel0 cursors0 pos0 hgo
        (fun k _ => getD_replicate_zero origLen k)
      exact ⟨by rw [this.1]; simp, this.2.2⟩
    · cases h

/-- Witness for `c9_no_coverage_check`: a container declaring 2 original
bytes whose single run only covers 1 byte; reassembly succeeds and the final
byte is zero. -/
theorem c9_no_coverage_check_witness :
    decompress_reassemble 2 [16] ([7] :: List.replicate 14 []) = .ok ([7, 0], 1) ∧
    (1 : Nat) < 2 ∧
    ([7, 0] : List Nat).length = 2 ∧ (([7, 0] : List Nat).getD 1 0 = 0) := by
  have hstep : decompress_reassemble 2 [16] ([7] :: List.replicate 14 []) = .ok ([7, 0], 1) := by
    unfold decompress_reassemble
    rw [@reassembleGo_step [16] 16 [] ([7] :: List.replicate 14 [])
      (List.replicate CAT_COUNT 0) (List.replicate 2 0) 0 (by decide) (by decide) (by decide)
      (by decide)]
    rw [reassembleGo]
    rfl
  refine ⟨hstep, by decide, ?_, ?_⟩
  · exact (c9_no_coverage_check 2 [16] ([7] :: List.replicate 14 []) [7, 0] 1 hstep).1
  · exact (c9_no_coverage_check 2 [16] ([7] :: List.replicate 14 []) [7, 0] 1 hstep).2 1
      (Nat.le_refl 1)

/-- Witness for `c8_cli_usage` at concrete inputs. -/
theorem c8_cli_usage_witness :
    cliDispatch ["fesh"] = .usageExit2 ∧
    cliDispatch ["fesh", "frobnicate", "x"] = .usageExit2 ∧
    cliDispatch ["fesh", "decompress", "in.bin"] = .panicOutOfBounds ∧
    cliDispatch ["fesh", "compress", "a", "b"] = .compressCmd "a" "b" := by
  refine ⟨?_, ?_, ?_, ?_⟩
  · exact c8_cli_usage.1 ["fesh"] (by decide)
  · exact c8_cli_usage.2.1 ["fesh", "frobnicate", "x"] (by decide) (by decide) (by decide)
      (by decide)
  · exact (c8_cli_usage.2.2.1 "fesh" "in.bin").2
  · exact c8_cli_usage.2.2.2 "fesh" "a" "b" []

end Fesh
